import Mathlib

/-!
Growable arrays, null-terminated pointer collections, string packing and concatenation:
a shallow embedding of `src/source/jst_dynmem.c`.

Modelling conventions
* A dynamically allocated block is the list of its cells; the length of the
  list is the real size of the block. An access outside the list is undefined
  behaviour in C and is reported as a `Fault`.
* A pointer that may be `NULL` is an `Option`; an opaque `void*` item is a
  natural number with `0` standing for `NULL`.
* The system allocator is an oracle (`Alloc`): it either refuses the request
  or grants a block, and then also fixes the indeterminate content of the
  cells the C standard leaves unspecified. Theorems quantify over the oracle.
* `int` and `size_t` values are natural numbers and indices are non-negative;
  `int` has 32 bits and `size_t` has 64. The two `int` operations of
  `jst_appendArrayItem`, `indx + 1` and `indx * item_size_in_bytes`, are
  checked against `INT_MAX`: a result that is not representable is undefined
  behaviour and is reported as a `Fault`. Its `size_t` operations do not wrap
  and are taken exactly: the growth path is entered with `*arlen ≤ indx`, so
  `( *arlen + 5 ) * item_size_in_bytes` is below `2 ^ 31 * 2 ^ 32`.
* In `jst_appendArrayItem` the `void*` buffer with stride `item_size_in_bytes`
  is a list of elements of a type `α`, the type of the elements of that many
  bytes, one list element per stride; `zero` is the element all of whose bytes
  are zero; byte offset `k * item_size_in_bytes` is element `k`.
* A C string is the list of its bytes before the terminator; a character
  buffer is the list of its bytes, `0` being the terminator.
* The block of `jst_packStringArray` mixes pointers and characters and is
  modelled byte by byte (`Cell`), for a pointer size `P = sizeof( char* )`.
* A call of `free` has no result; the functions that release memory return the
  list of their calls of `free`, in order (`Released`).
* A loop of the source is a recursive function named after what it does; the
  one loop that need not terminate (`shiftLoop`) takes a bound on its
  iterations and answers `none` when the bound is reached.
-/

namespace JstDynmem

/-! ## Memory faults and the allocator -/

/-- Undefined behaviour the C code can run into. -/
inductive Fault where
  /-- a read or write at cell `index` of a block of `size` cells, `size ≤ index` -/
  | outOfBounds (index size : Nat)
  /-- a dereference of a null pointer -/
  | nullDeref
  /-- a read of bytes that do not hold a value of the type that is read -/
  | badRead
  /-- an operation on `int` values whose result is not representable in an `int` -/
  | signedOverflow
  deriving DecidableEq

deriving instance DecidableEq for Except

/-- The answer of the system allocator to one request. -/
inductive Alloc (α : Type) where
  /-- no block is granted; the allocator stores `err` into `errno` -/
  | fail (err : Nat)
  /-- a block is granted; `junk i` is the content of cell `i` wherever the
  request leaves that cell indeterminate -/
  | ok (junk : Nat → α)

/-- The value `errno` holds after a request answered by `a`, when it held `e` before. -/
def Alloc.errno {α : Type} (a : Alloc α) (e : Nat) : Nat :=
  match a with
  | .fail err => err
  | .ok _ => e

/-- Source `jst_malloc`: a block of `size` cells with indeterminate content. -/
def jst_malloc {α : Type} (size : Nat) (a : Alloc α) : Option (List α) :=
  match a with
  | .fail _ => none
  | .ok junk => some ((List.range size).map junk)

/-- Source `jst_calloc`: a block of `nelem` zero elements. -/
def jst_calloc {α : Type} (zero : α) (nelem : Nat) (a : Alloc α) : Option (List α) :=
  match a with
  | .fail _ => none
  | .ok _ => some (List.replicate nelem zero)

/-- Source `jst_realloc`: a block of `size` cells that keeps the old content up to the
smaller of the two sizes; the cells beyond the old size are indeterminate. -/
def jst_realloc {α : Type} (ptr : List α) (size : Nat) (a : Alloc α) : Option (List α) :=
  match a with
  | .fail _ => none
  | .ok junk => some ((List.range size).map (fun i => ptr.getD i (junk i)))

/-- One store `buf[i] = v`. -/
def storeAt {α : Type} (buf : List α) (i : Nat) (v : α) : Except Fault (List α) :=
  if i < buf.length then .ok (buf.set i v) else .error (.outOfBounds i buf.length)

/-- The call `memset(buf + start, 0, count)`, counted in elements. -/
def zeroFill {α : Type} (zero : α) (buf : List α) (start count : Nat) : Except Fault (List α) :=
  if start + count ≤ buf.length then
    .ok (buf.take start ++ List.replicate count zero ++ buf.drop (start + count))
  else .error (.outOfBounds (start + count - 1) buf.length)

/-! ## Generic growable array -/

/-- Source `DYNAMIC_ARRAY_LENGTH_INCREMENT`. -/
def DYNAMIC_ARRAY_LENGTH_INCREMENT : Nat := 5

/-- What `jst_appendArrayItem` hands back: the returned pointer and `*arlen`. -/
structure ArrayItemResult (α : Type) where
  /-- the returned array, `none` for `NULL` -/
  array : Option (List α)
  /-- the value of `*arlen` on return -/
  arlen : Nat

/-- Source `INT_MAX`, for the 32-bit `int` of the platforms the launcher is built for. -/
def INT_MAX : Nat := 2147483647

/-- Source `jst_appendArrayItem` (lines 52-75). `item = none` is a null `item`;
`indx` and `item_size_in_bytes` are the two `int` parameters. The sum `indx + 1` of line 57
and the product `indx * item_size_in_bytes` of lines 69 and 71 are computed in `int`: where
the result exceeds `INT_MAX` the call has undefined behaviour, here `Fault.signedOverflow`.
The comparison of line 59 and the sizes of lines 62 and 64 are computed in `size_t`. -/
def jst_appendArrayItem {α : Type} (zero : α) (array : Option (List α)) (indx : Nat)
    (arlen : Nat) (item : Option α) (item_size_in_bytes : Nat) (a : Alloc α) :
    Except Fault (ArrayItemResult α) :=
  -- the value written at `indx`: the item's bytes, or zero bytes
  let v : α := match item with
    | some x => x
    | none => zero
  match array with
  | none =>
    -- allocate array if requested; `*arlen` is read, never written, on this path
    if indx + 1 > INT_MAX then .error .signedOverflow
    else
      let size := if arlen > indx + 1 then arlen else indx + 1
      match jst_calloc zero size a with
      | none => .ok ⟨none, arlen⟩
      | some arr =>
        if indx * item_size_in_bytes > INT_MAX then .error .signedOverflow
        else
          match storeAt arr indx v with
          | .error f => .error f
          | .ok arr => .ok ⟨some arr, arlen⟩
  | some arr =>
    if indx ≥ arlen then
      -- ensure there is enough space
      let previousSize := arlen
      let arlen := arlen + DYNAMIC_ARRAY_LENGTH_INCREMENT
      match jst_realloc arr arlen a with
      | none => .ok ⟨none, arlen⟩
      | some arr =>
        match zeroFill zero arr previousSize (arlen - previousSize) with
        | .error f => .error f
        | .ok arr =>
          if indx * item_size_in_bytes > INT_MAX then .error .signedOverflow
          else
            match storeAt arr indx v with
            | .error f => .error f
            | .ok arr => .ok ⟨some arr, arlen⟩
    else
      if indx * item_size_in_bytes > INT_MAX then .error .signedOverflow
      else
        match storeAt arr indx v with
        | .error f => .error f
        | .ok arr => .ok ⟨some arr, arlen⟩

/-- What `jst_appendArrayItem` does when its `int` arithmetic is in range, that is when
`indx * item_size_in_bytes`, and `indx + 1` for an absent array, are at most `INT_MAX`
(`jst_appendArrayItem_in_range`): the stride no longer matters. -/
def appendArrayItemInRange {α : Type} (zero : α) (array : Option (List α)) (indx : Nat)
    (arlen : Nat) (item : Option α) (a : Alloc α) : Except Fault (ArrayItemResult α) :=
  -- the value written at `indx`: the item's bytes, or zero bytes
  let v : α := match item with
    | some x => x
    | none => zero
  match array with
  | none =>
    let size := if arlen > indx + 1 then arlen else indx + 1
    match jst_calloc zero size a with
    | none => .ok ⟨none, arlen⟩
    | some arr =>
      match storeAt arr indx v with
      | .error f => .error f
      | .ok arr => .ok ⟨some arr, arlen⟩
  | some arr =>
    if indx ≥ arlen then
      let previousSize := arlen
      let arlen := arlen + DYNAMIC_ARRAY_LENGTH_INCREMENT
      match jst_realloc arr arlen a with
      | none => .ok ⟨none, arlen⟩
      | some arr =>
        match zeroFill zero arr previousSize (arlen - previousSize) with
        | .error f => .error f
        | .ok arr =>
          match storeAt arr indx v with
          | .error f => .error f
          | .ok arr => .ok ⟨some arr, arlen⟩
    else
      match storeAt arr indx v with
      | .error f => .error f
      | .ok arr => .ok ⟨some arr, arlen⟩

/-- A caller that builds an array of elements of `item_size_in_bytes` bytes item by item:
one call of `jst_appendArrayItem` per item, at the indices `indx`, `indx + 1`, ..., each
passed the array and the capacity variable as the call before left them. `allocs i` answers
the call at index `i`. It stops at the first call that returns `NULL`. -/
def appendItems {α : Type} (zero : α) (item_size_in_bytes : Nat) (allocs : Nat → Alloc α) :
    List (Option α) → Nat → Option (List α) → Nat → Except Fault (ArrayItemResult α)
  | [], _, array, arlen => .ok ⟨array, arlen⟩
  | item :: rest, indx, array, arlen =>
    match jst_appendArrayItem zero array indx arlen item item_size_in_bytes (allocs indx) with
    | .error f => .error f
    | .ok r =>
      match r.array with
      | none => .ok r
      | some arr =>
        appendItems zero item_size_in_bytes allocs rest (indx + 1) (some arr) r.arlen

/-! ## Null-terminated pointer collection -/

/-- What `jst_appendPointer` leaves behind. -/
structure PointerResult where
  /-- the returned pointer, `none` for `NULL` -/
  ret : Option (List Nat)
  /-- the caller's handle `*pointerToNullTerminatedPointerArray` on return -/
  array : Option (List Nat)
  /-- the value of `*arrSize` on return -/
  arrSize : Nat
  deriving DecidableEq

/-- The loop `while ( arr[ count ] ) count++` of `jst_appendPointer`; the list holds the
slots from `count` on. -/
def countLoop : List Nat → Nat → Except Fault Nat
  | [], count => .error (.outOfBounds count count)
  | x :: rest, count => if x ≠ 0 then countLoop rest (count + 1) else .ok count

/-- Source `jst_appendPointer` (lines 164-186). -/
def jst_appendPointer (array : Option (List Nat)) (arrSize : Nat) (item : Nat)
    (a : Alloc Nat) : Except Fault PointerResult :=
  match array with
  | none =>
    let arrSize := if arrSize = 0 then DYNAMIC_ARRAY_LENGTH_INCREMENT else arrSize
    match jst_calloc 0 arrSize a with
    | none => .ok ⟨none, none, arrSize⟩
    | some arr =>
      match storeAt arr 0 item with
      | .error f => .error f
      | .ok arr => .ok ⟨some arr, some arr, arrSize⟩
  | some arr =>
    match countLoop arr 0 with
    | .error f => .error f
    | .ok count =>
      -- 1 for terminating null
      let grown : Option (List Nat) × Nat :=
        if arrSize ≤ count + 1 then
          (jst_realloc arr (count + DYNAMIC_ARRAY_LENGTH_INCREMENT) a,
            count + DYNAMIC_ARRAY_LENGTH_INCREMENT)
        else (some arr, arrSize)
      match grown.1 with
      | none => .ok ⟨none, none, grown.2⟩
      | some arr =>
        match storeAt arr count item with
        | .error f => .error f
        | .ok arr =>
          match storeAt arr (count + 1) 0 with
          | .error f => .error f
          | .ok arr => .ok ⟨some arr, some arr, grown.2⟩

/-- What `jst_RemovePointer` leaves behind. -/
structure RemoveResult where
  /-- the returned pointer, `0` for `NULL` -/
  ret : Nat
  /-- the collection on return -/
  array : List Nat
  deriving DecidableEq

/-- The loop `while ( *p && *p != itemToBeRemoved ) p++` of `jst_RemovePointer`; the list
holds the slots from `p` on, the result is the final `p`. -/
def findLoop (itemToBeRemoved : Nat) : List Nat → Nat → Except Fault Nat
  | [], p => .error (.outOfBounds p p)
  | x :: rest, p => if x ≠ 0 ∧ x ≠ itemToBeRemoved then findLoop itemToBeRemoved rest (p + 1)
      else .ok p

/-- The loop `while ( *p ) { *p = *( p + 1 ) ; }` of `jst_RemovePointer`, in which `p` does
not move. `fuel` bounds the number of times the body runs; `none` says that after that many
runs the loop condition still holds. -/
def shiftLoop (p : Nat) : Nat → List Nat → Option (Except Fault (List Nat))
  | fuel, arr =>
    match arr[p]? with
    | none => some (.error (.outOfBounds p arr.length))
    | some x =>
      if x = 0 then some (.ok arr)
      else
        match fuel with
        | 0 => none
        | fuel + 1 =>
          match arr[p + 1]? with
          | none => some (.error (.outOfBounds (p + 1) arr.length))
          | some y => shiftLoop p fuel (arr.set p y)

/-- Source `jst_RemovePointer` (lines 199-206), its second loop bounded by `fuel`. -/
def jst_RemovePointer (fuel : Nat) (nullTerminatedPointerArray : List Nat)
    (itemToBeRemoved : Nat) : Option (Except Fault RemoveResult) :=
  match findLoop itemToBeRemoved nullTerminatedPointerArray 0 with
  | .error f => some (.error f)
  | .ok p =>
    if nullTerminatedPointerArray.getD p 0 = 0 then
      some (.ok ⟨0, nullTerminatedPointerArray⟩)
    else
      match shiftLoop p fuel nullTerminatedPointerArray with
      | none => none
      | some (.error f) => some (.error f)
      | some (.ok arr) => some (.ok ⟨itemToBeRemoved, arr⟩)

/-- A caller that removes the same pointer twice: the second call works on the collection
the first one left. The result is the two returned pointers and the final collection. -/
def removeTwice (fuel : Nat) (nullTerminatedPointerArray : List Nat) (itemToBeRemoved : Nat) :
    Option (Except Fault (Nat × Nat × List Nat)) :=
  match jst_RemovePointer fuel nullTerminatedPointerArray itemToBeRemoved with
  | none => none
  | some (.error f) => some (.error f)
  | some (.ok r1) =>
    match jst_RemovePointer fuel r1.array itemToBeRemoved with
    | none => none
    | some (.error f) => some (.error f)
    | some (.ok r2) => some (.ok (r1.ret, r2.ret, r2.array))

/-- One call of `free`. -/
inductive Released where
  /-- the call `free( item )` on a pointer of the collection or of the caller -/
  | item (p : Nat)
  /-- the call `free` on the block of the collection itself -/
  | array (arr : List Nat)
  deriving DecidableEq

/-- What `jst_freeAll` leaves behind. -/
structure FreeAllResult where
  /-- the caller's handle `*pointerToNullTerminatedPointerArray` on return -/
  array : Option (List Nat)
  /-- the calls of `free` the function made, in order -/
  freed : List Released
  deriving DecidableEq

/-- The loop `while ( ( item = arr[ indx++ ] ) ) free( item )` of `jst_freeAll`; the list
holds the slots from `indx` on, the result is the calls of `free` in order. -/
def freeLoop : List Nat → Nat → Except Fault (List Released)
  | [], indx => .error (.outOfBounds indx indx)
  | item :: rest, indx =>
    if item ≠ 0 then
      match freeLoop rest (indx + 1) with
      | .error f => .error f
      | .ok freed => .ok (Released.item item :: freed)
    else .ok []

/-- Source `jst_freeAll` (lines 188-197). -/
def jst_freeAll (array : Option (List Nat)) : Except Fault FreeAllResult :=
  match array with
  | none => .ok ⟨none, []⟩
  | some arr =>
    match freeLoop arr 0 with
    | .error f => .error f
    | .ok freed => .ok ⟨none, freed ++ [Released.array arr]⟩

/-- What `jst_RemoveAndFreePointer` leaves behind. -/
structure RemoveAndFreeResult where
  /-- the returned `jboolean` -/
  rval : Bool
  /-- the collection on return -/
  array : List Nat
  /-- the calls of `free` the function made, in order -/
  freed : List Released
  deriving DecidableEq

/-- Source `jst_RemoveAndFreePointer` (lines 208-212); `item` is the value
`*pointerToItemToBeRemoved`, `fuel` bounds the second loop of `jst_RemovePointer`. -/
def jst_RemoveAndFreePointer (fuel : Nat) (nullTerminatedPointerArray : List Nat)
    (item : Nat) : Option (Except Fault RemoveAndFreeResult) :=
  match jst_RemovePointer fuel nullTerminatedPointerArray item with
  | none => none
  | some (.error f) => some (.error f)
  | some (.ok r) => some (.ok ⟨decide (r.ret ≠ 0), r.array, [Released.item item]⟩)

/-! ## String concatenation -/

/-- The bytes of a C string before its terminator. -/
abbrev CStr := List Nat

/-- A `char*`: `none` is `NULL`, `some s` points to the string `s`. -/
abbrev StrPtr := Option CStr

/-- The scan of `strlen`: the list holds the characters from offset `n` on. -/
def strlenLoop : List Nat → Nat → Except Fault Nat
  | [], n => .error (.outOfBounds n n)
  | c :: rest, n => if c ≠ 0 then strlenLoop rest (n + 1) else .ok n

/-- The call `strlen( buf )` on a block of characters. -/
def strlen (buf : List Nat) : Except Fault Nat :=
  strlenLoop buf 0

/-- The loop `while ( *t ) *s++ = *t++` of `jst_append`: the characters of `t` are stored
from offset `s` on. -/
def copyChars : List Nat → Nat → CStr → Except Fault (List Nat)
  | buf, _, [] => .ok buf
  | buf, s, c :: t =>
    match storeAt buf s c with
    | .error f => .error f
    | .ok buf => copyChars buf (s + 1) t

/-- The loop `for ( i = 0 ; ( t = stringsToAppend[ i ] ) ; i++ )` of `jst_append`; the list
holds the table entries from `i` on, the result is the buffer and the final `s`. -/
def copyStrings : List StrPtr → Nat → List Nat → Nat → Except Fault (List Nat × Nat)
  | [], i, _, _ => .error (.outOfBounds i i)
  | none :: _, _, buf, s => .ok (buf, s)
  | some t :: rest, i, buf, s =>
    match copyChars buf s t with
    | .error f => .error f
    | .ok buf => copyStrings rest (i + 1) buf (s + t.length)

/-- The local variables of `jst_append` that its argument loop changes. -/
structure ArgState where
  /-- the table of the strings to append, `none` once an allocation has failed -/
  stringsToAppend : Option (List StrPtr)
  /-- the number of strings stored so far -/
  i : Nat
  /-- the tracked size of the table -/
  numArgs : Nat
  /-- the size needed for the target -/
  totalSize : Nat
  /-- the value of `errno` -/
  errno : Nat

/-- The loop `while ( ( s = va_arg( args, char* ) ) )` of `jst_append` over the variadic
arguments up to the terminating `NULL`. The call
`jst_appendArrayItem( stringsToAppend, i++, &numArgs, &s, sizeof( char* ) )` that stores at
index `i` is answered by `tableAlloc (i + 1)` if it asks the allocator. Its index is at most
the number of variadic arguments of one call, so `i * sizeof( char* )` is far below
`INT_MAX` and the call is taken in the form `appendArrayItemInRange`. -/
def collectArgs (tableAlloc : Nat → Alloc StrPtr) : List CStr → ArgState → Except Fault ArgState
  | [], st => .ok st
  | s :: rest, st =>
    match st.stringsToAppend with
    | none => .ok st
    | some table =>
      -- skip empty strings
      if s ≠ [] then
        match appendArrayItemInRange none (some table) st.i st.numArgs (some (some s))
            (tableAlloc (st.i + 1)) with
        | .error f => .error f
        | .ok r =>
          match r.array with
          | none => .ok ⟨none, st.i + 1, r.arlen, st.totalSize,
              (tableAlloc (st.i + 1)).errno st.errno⟩
          | some table =>
            collectArgs tableAlloc rest
              ⟨some table, st.i + 1, r.arlen, st.totalSize + s.length, st.errno⟩
      else collectArgs tableAlloc rest st

/-- The arguments `jst_append` does not skip: the non-empty ones, in order. -/
def nonEmptyArgs : List CStr → List CStr
  | [] => []
  | s :: rest => if s ≠ [] then s :: nonEmptyArgs rest else nonEmptyArgs rest

/-- What `jst_append` hands back: the returned pointer and `*bufsize`. -/
structure AppendResult where
  /-- the returned buffer, `none` for `NULL` -/
  ret : Option (List Nat)
  /-- the value of `*bufsize` on return, `none` if `bufsize` is `NULL` -/
  bufsize : Option Nat
  deriving DecidableEq

/-- The code of `jst_append` after the label `end`. -/
def appendEnd (target : Option (List Nat)) (bufsize : Option Nat) (errno : Nat) :
    AppendResult :=
  ⟨if errno ≠ 0 then none else target, bufsize⟩

/-- Source `jst_append` (lines 106-159). `args` are the variadic arguments before the
terminating `NULL`; `tableAlloc 0` answers the allocation of the argument table,
`tableAlloc (i + 1)` the growth of the table at index `i`, `targetAlloc` the allocation or
reallocation of the target. -/
def jst_append (target : Option (List Nat)) (bufsize : Option Nat) (args : List CStr)
    (tableAlloc : Nat → Alloc StrPtr) (targetAlloc : Alloc Nat) : Except Fault AppendResult :=
  match (match target with
    | some t => strlen t
    | none => .ok 0) with
  | .error f => .error f
  | .ok targetlen =>
    -- the size of the buffer we are storing the param strings into
    let numArgs := 10
    -- 1 for the terminating nul char
    let totalSize := targetlen + 1
    -- errno = 0
    match jst_malloc numArgs (tableAlloc 0) with
    | none => .ok (appendEnd target bufsize ((tableAlloc 0).errno 0))
    | some table =>
      match collectArgs tableAlloc args ⟨some table, 0, numArgs, totalSize, 0⟩ with
      | .error f => .error f
      | .ok st =>
        match st.stringsToAppend with
        | none => .ok (appendEnd target bufsize st.errno)
        | some table =>
          -- s is now NULL; it is stored at index i
          match appendArrayItemInRange none (some table) st.i st.numArgs (some none)
              (tableAlloc (st.i + 1)) with
          | .error f => .error f
          | .ok r =>
            match r.array with
            | none => .ok (appendEnd target bufsize ((tableAlloc (st.i + 1)).errno st.errno))
            | some table =>
              -- if ( !target || *bufsize < totalSize )
              let ready : Except Fault (Option (List Nat) × Option Nat × Nat) :=
                match target, bufsize with
                | none, none =>
                  .ok (jst_malloc st.totalSize targetAlloc, none, targetAlloc.errno st.errno)
                | none, some b =>
                  -- reserve the given amount of space
                  let totalSize := if b > st.totalSize then b else st.totalSize
                  match jst_malloc totalSize targetAlloc with
                  | none => .ok (none, some b, targetAlloc.errno st.errno)
                  | some t => .ok (some t, some totalSize, st.errno)
                | some _, none => .error .nullDeref
                | some t, some b =>
                  if b < st.totalSize then
                    match jst_realloc t st.totalSize targetAlloc with
                    | none => .ok (none, some b, targetAlloc.errno st.errno)
                    | some t => .ok (some t, some st.totalSize, st.errno)
                  else .ok (some t, some b, st.errno)
              match ready with
              | .error f => .error f
              | .ok (none, bufsize, errno) => .ok (appendEnd none bufsize errno)
              | .ok (some buf, bufsize, errno) =>
                match copyStrings table 0 buf targetlen with
                | .error f => .error f
                | .ok (buf, s) =>
                  match storeAt buf s 0 with
                  | .error f => .error f
                  | .ok buf => .ok (appendEnd (some buf) bufsize errno)

/-! ## Packed string block -/

/-- One byte of the block `jst_packStringArray` allocates. -/
inductive Cell where
  /-- a character -/
  | chr (c : Nat)
  /-- byte `k` of a stored `char*` of value `v`: the offset, in the block, of the byte it
  points to, or `none` for `NULL` -/
  | ptr (v : Option Nat) (k : Nat)
  deriving DecidableEq

/-- The `P = sizeof( char* )` bytes of a stored pointer of value `v`. -/
def ptrCells (P : Nat) (v : Option Nat) : List Cell :=
  (List.range P).map (Cell.ptr v)

/-- The store `rval[ i ] = v`: it writes the `P` bytes from offset `i * P` on. -/
def storePtr (P : Nat) (mem : List Cell) (i : Nat) (v : Option Nat) :
    Except Fault (List Cell) :=
  if i * P + P ≤ mem.length then
    .ok (mem.take (i * P) ++ ptrCells P v ++ mem.drop (i * P + P))
  else .error (.outOfBounds (i * P + P - 1) mem.length)

/-- The first loop of `jst_packStringArray`,
`while ( ( s = nullTerminatedStringArray[ i++ ] ) ) totalByteSize += sizeof( char* ) + strlen( s ) + 1`;
the list holds the strings from index `i` on, the result is `totalByteSize` and `i`. -/
def sizeLoop (P : Nat) : List CStr → Nat → Nat → Nat × Nat
  | [], totalByteSize, i => (totalByteSize, i + 1)
  | s :: rest, totalByteSize, i => sizeLoop P rest (totalByteSize + (P + s.length + 1)) (i + 1)

/-- The loop `while ( ( *temp++ = *s++ ) )` of `jst_packStringArray`: the characters of `s`
and then its terminator are stored from offset `temp` on; the result is the block and the
final `temp`. -/
def packCopy : List Cell → Nat → CStr → Except Fault (List Cell × Nat)
  | mem, temp, [] =>
    match storeAt mem temp (Cell.chr 0) with
    | .error f => .error f
    | .ok mem => .ok (mem, temp + 1)
  | mem, temp, c :: s =>
    match storeAt mem temp (Cell.chr c) with
    | .error f => .error f
    | .ok mem => packCopy mem (temp + 1) s

/-- The loop `for ( i = 0 ; ( s = nullTerminatedStringArray[ i ] ) ; i++ )` of
`jst_packStringArray`; the list holds the strings from index `i` on, the result is the
block and the final `i`. -/
def packLoop (P : Nat) : List CStr → Nat → List Cell → Nat → Except Fault (List Cell × Nat)
  | [], i, rval, _ => .ok (rval, i)
  | s :: rest, i, rval, temp =>
    match storePtr P rval i (some temp) with
    | .error f => .error f
    | .ok rval =>
      match packCopy rval temp s with
      | .error f => .error f
      | .ok (rval, temp) => packLoop P rest (i + 1) rval temp

/-- Source `jst_packStringArray` (lines 79-103) for `sizeof( char* ) = P`. The argument is
the strings of the array before its terminating `NULL`; the result is the block, `none`
for `NULL`. -/
def jst_packStringArray (P : Nat) (nullTerminatedStringArray : List CStr) (a : Alloc Cell) :
    Except Fault (Option (List Cell)) :=
  -- space for the terminating NULL
  let sized := sizeLoop P nullTerminatedStringArray P 0
  match jst_malloc sized.1 a with
  | none => .ok none
  | some rval =>
    -- i now equals the string count + 1; temp points to the position after the char*
    let temp := sized.2 * P
    match packLoop P nullTerminatedStringArray 0 rval temp with
    | .error f => .error f
    | .ok (rval, i) =>
      match storePtr P rval i none with
      | .error f => .error f
      | .ok rval => .ok (some rval)

/-- The read `rval[ i ]` of a pointer slot of a block. -/
def loadPtr (P : Nat) (mem : List Cell) (i : Nat) : Except Fault (Option Nat) :=
  if i * P + P ≤ mem.length then
    match (mem.drop (i * P)).take P with
    | Cell.ptr v _ :: rest => if Cell.ptr v 0 :: rest = ptrCells P v then .ok v else .error .badRead
    | _ => .error .badRead
  else .error (.outOfBounds (i * P + P - 1) mem.length)

/-- The read of the C string that starts at offset `off`; the list holds the bytes of the
block from that offset on. -/
def readCStr : List Cell → Nat → Except Fault CStr
  | [], off => .error (.outOfBounds off off)
  | Cell.ptr _ _ :: _, _ => .error .badRead
  | Cell.chr c :: rest, off =>
    if c ≠ 0 then
      match readCStr rest (off + 1) with
      | .error f => .error f
      | .ok s => .ok (c :: s)
    else .ok []

/-- A consumer of a packed block: it follows the pointer slots from slot `i` on up to the
first null slot and reads the string each one points to. `fuel` bounds the number of slots. -/
def readBackLoop (P : Nat) (mem : List Cell) : Nat → Nat → Except Fault (List CStr)
  | 0, i => .error (.outOfBounds (i * P) mem.length)
  | fuel + 1, i =>
    match loadPtr P mem i with
    | .error f => .error f
    | .ok none => .ok []
    | .ok (some off) =>
      match readCStr (mem.drop off) off with
      | .error f => .error f
      | .ok s =>
        match readBackLoop P mem fuel (i + 1) with
        | .error f => .error f
        | .ok strs => .ok (s :: strs)

/-- The strings a consumer reads back from a block; a block of `n` bytes has fewer than
`n + 1` pointer slots. -/
def readBack (P : Nat) (mem : List Cell) : Except Fault (List CStr) :=
  readBackLoop P mem (mem.length + 1) 0

/-- The bytes of a string and its terminator in a block. -/
def strCells (s : CStr) : List Cell :=
  s.map Cell.chr ++ [Cell.chr 0]

/-- The string region of a packed block: every string with its terminator, contiguous. -/
def dataCells : List CStr → List Cell
  | [] => []
  | s :: rest => strCells s ++ dataCells rest

/-- The offsets of consecutive strings stored from offset `base` on. -/
def packOffsets : Nat → List CStr → List Nat
  | _, [] => []
  | base, s :: rest => base :: packOffsets (base + s.length + 1) rest

/-- The bytes of a table of pointer slots. -/
def tableCells (P : Nat) : List (Option Nat) → List Cell
  | [] => []
  | v :: rest => ptrCells P v ++ tableCells P rest

/-! ## Facts about the allocator and the stores -/

theorem realloc_ok_eq {α : Type} (ptr : List α) (size : Nat) (junk : Nat → α) :
    jst_realloc ptr size (.ok junk)
      = some (ptr.take size ++ (List.range' ptr.length (size - ptr.length)).map junk) := by
  unfold jst_realloc
  simp only [Option.some.injEq]
  apply List.ext_getElem
  · simp; omega
  · intro i h1 h2
    simp only [List.length_map, List.length_range] at h1
    by_cases hi : i < ptr.length
    · rw [List.getElem_append_left (by simp; omega)]
      simp [List.getD_eq_getElem?_getD, List.getElem?_eq_getElem hi]
    · rw [List.getElem_append_right (by simp; omega)]
      simp [List.getD_eq_getElem?_getD, List.getElem?_eq_none (not_lt.mp hi)]
      congr 1
      simp [Nat.min_def]
      split <;> omega

theorem set_append_here {α : Type} (es : List α) (x v : α) (t : List α) :
    (es ++ x :: t).set es.length v = es ++ v :: t := by
  induction es with
  | nil => rfl
  | cons e es ih => simp [ih]

theorem set_append_next {α : Type} (es : List α) (x y v : α) (t : List α) :
    (es ++ x :: y :: t).set (es.length + 1) v = es ++ x :: v :: t := by
  induction es with
  | nil => rfl
  | cons e es ih => simp [ih]

/-! ## Growable array: `jst_appendArrayItem` -/

/-- When the two `int` operations of a call are in range, `jst_appendArrayItem` is
`appendArrayItemInRange`, whatever the stride. -/
theorem jst_appendArrayItem_in_range {α : Type} (zero : α) (array : Option (List α))
    (indx arlen : Nat) (item : Option α) (item_size_in_bytes : Nat) (a : Alloc α)
    (hsucc : array = none → indx + 1 ≤ INT_MAX)
    (hoff : indx * item_size_in_bytes ≤ INT_MAX) :
    jst_appendArrayItem zero array indx arlen item item_size_in_bytes a
      = appendArrayItemInRange zero array indx arlen item a := by
  have h1 : ¬ (indx * item_size_in_bytes > INT_MAX) := Nat.not_lt.mpr hoff
  cases array with
  | none =>
    have h2 : ¬ (indx + 1 > INT_MAX) := Nat.not_lt.mpr (hsucc rfl)
    simp only [jst_appendArrayItem, appendArrayItemInRange, h1, h2, if_false]
  | some arr =>
    simp only [jst_appendArrayItem, appendArrayItemInRange, h1, if_false]

theorem appendArrayItem_grow_eq {α : Type} (zero : α) (arr : List α) (indx : Nat)
    (item : Option α) (junk : Nat → α) (h1 : arr.length ≤ indx) (h2 : indx < arr.length + 5) :
    appendArrayItemInRange zero (some arr) indx arr.length item (.ok junk)
      = .ok ⟨some ((arr ++ List.replicate 5 zero).set indx (item.getD zero)),
          arr.length + 5⟩ := by
  have hv : (match item with
      | some x => x
      | none => zero) = item.getD zero := by cases item <;> rfl
  simp only [appendArrayItemInRange, hv, ge_iff_le, h1, if_true, realloc_ok_eq,
    DYNAMIC_ARRAY_LENGTH_INCREMENT]
  have hz : zeroFill zero
      (List.take (arr.length + 5) arr
        ++ List.map junk (List.range' arr.length (arr.length + 5 - arr.length)))
      arr.length (arr.length + 5 - arr.length)
      = .ok (arr ++ List.replicate 5 zero) := by
    simp [zeroFill, List.take_of_length_le]
  rw [hz]
  simp [storeAt, h2]

theorem appendArrayItem_inplace_eq {α : Type} (zero : α) (arr : List α) (indx : Nat)
    (item : Option α) (a : Alloc α) (h1 : indx < arr.length) :
    appendArrayItemInRange zero (some arr) indx arr.length item a
      = .ok ⟨some (arr.set indx (item.getD zero)), arr.length⟩ := by
  have hv : (match item with
      | some x => x
      | none => zero) = item.getD zero := by cases item <;> rfl
  simp [appendArrayItemInRange, hv, h1, storeAt]

theorem take_succ_set {α : Type} (l : List α) (i : Nat) (v : α) (h : i < l.length) :
    (l.set i v).take (i + 1) = l.take i ++ [v] := by
  induction l generalizing i with
  | nil => simp at h
  | cons x xs ih =>
    cases i with
    | zero => simp
    | succ j => simp at h; simp [ih j h]

/-- An append at an index not beyond the end of an array whose tracked capacity is its
real size: the result has tracked capacity equal to real size again, the index is inside,
and the elements up to the index are the old ones followed by the value written. -/
theorem appendArrayItem_tracked {α : Type} (zero : α) (arr : List α) (indx : Nat)
    (item : Option α) (junk : Nat → α) (hle : indx ≤ arr.length) :
    ∃ arr2 : List α,
      appendArrayItemInRange zero (some arr) indx arr.length item (.ok junk)
        = .ok ⟨some arr2, arr2.length⟩
      ∧ indx < arr2.length
      ∧ arr2.take (indx + 1) = arr.take indx ++ [item.getD zero]
      ∧ (arr2.length = arr.length ∨ arr2.length = arr.length + 5) := by
  rcases Nat.lt_or_ge indx arr.length with h | h
  · refine ⟨arr.set indx (item.getD zero), ?_, by simpa using h, take_succ_set _ _ _ h,
      Or.inl (by simp)⟩
    rw [appendArrayItem_inplace_eq zero arr indx item _ h]
    simp
  · have he : indx = arr.length := le_antisymm hle h
    subst he
    refine ⟨(arr ++ List.replicate 5 zero).set arr.length (item.getD zero), ?_, by simp, ?_,
      Or.inr (by simp)⟩
    · rw [appendArrayItem_grow_eq zero arr arr.length item junk (le_refl _) (by omega)]
      simp
    · rw [take_succ_set _ _ _ (by simp)]
      simp

/-- C7 (defect in the code): on the creation path `jst_appendArrayItem` computes
`size = max(*arlen, indx + 1)` and allocates that many zero elements, but it never stores
`size` into `*arlen`. With an absent array, capacity `0`, index `0` and an item, whatever
the stride, the buffer returned has one element holding the item while the tracked capacity
is still `0`, not `max(0, 0 + 1) = 1`. -/
theorem jst_appendArrayItem_create_leaves_arlen :
    ∀ (item_size_in_bytes : Nat) (junk : Nat → Nat),
      jst_appendArrayItem 0 none 0 0 (some 7) item_size_in_bytes (.ok junk)
        = .ok ⟨some [7], 0⟩ := by
  intro item_size_in_bytes junk
  rw [jst_appendArrayItem_in_range 0 none 0 0 (some 7) item_size_in_bytes (.ok junk)
    (fun _ => by decide) (by rw [Nat.zero_mul]; exact Nat.zero_le _)]
  rfl

/-- C8, as amended: growth and no-growth on an existing array whose tracked capacity `c` is
its real element count, for an index and a stride whose product, the byte offset
`indx * item_size_in_bytes` that the code computes in `int`, is at most `INT_MAX`. If
`c ≤ indx < c + 5` and the reallocation succeeds, the capacity becomes `c + 5` and the
buffer is the old elements, unchanged, followed by five zero elements, with element `indx`
then holding the item (zero if the item is absent). If `indx < c` the allocator is not
asked, the capacity stays `c` and only element `indx` changes. -/
theorem jst_appendArrayItem_existing {α : Type} (zero : α) (arr : List α) (c indx : Nat)
    (item : Option α) (item_size_in_bytes : Nat) (hc : arr.length = c)
    (hoff : indx * item_size_in_bytes ≤ INT_MAX) :
    (c ≤ indx → indx < c + 5 → ∀ junk : Nat → α,
        jst_appendArrayItem zero (some arr) indx c item item_size_in_bytes (.ok junk)
          = .ok ⟨some ((arr ++ List.replicate 5 zero).set indx (item.getD zero)), c + 5⟩)
    ∧ (indx < c → ∀ a : Alloc α,
        jst_appendArrayItem zero (some arr) indx c item item_size_in_bytes a
          = .ok ⟨some (arr.set indx (item.getD zero)), c⟩) := by
  subst hc
  constructor
  · intro h1 h2 junk
    rw [jst_appendArrayItem_in_range zero (some arr) indx arr.length item item_size_in_bytes
      (.ok junk) (fun h => by cases h) hoff]
    exact appendArrayItem_grow_eq zero arr indx item junk h1 h2
  · intro h1 a
    rw [jst_appendArrayItem_in_range zero (some arr) indx arr.length item item_size_in_bytes
      a (fun h => by cases h) hoff]
    exact appendArrayItem_inplace_eq zero arr indx item a h1

/-- Witness for C8 as amended: with a stride of 4 bytes the array `[1, 2]` of capacity 2
grows to capacity 7 at index 3, and is written in place at index 1. -/
theorem jst_appendArrayItem_existing_witness :
    ([1, 2] : List Nat).length = 2 ∧ 3 * 4 ≤ INT_MAX ∧ 1 * 4 ≤ INT_MAX
    ∧ jst_appendArrayItem 0 (some [1, 2]) 3 2 (some 7) 4 (.ok fun _ => 9)
        = .ok ⟨some [1, 2, 0, 7, 0, 0, 0], 7⟩
    ∧ jst_appendArrayItem 0 (some [1, 2]) 1 2 none 4 (.fail 12) = .ok ⟨some [1, 0], 2⟩ :=
  ⟨rfl, by decide, by decide,
   (jst_appendArrayItem_existing 0 [1, 2] 2 3 (some 7) 4 rfl (by decide)).1
     (by decide) (by decide) _,
   (jst_appendArrayItem_existing 0 [1, 2] 2 1 none 4 rfl (by decide)).2 (by decide) _⟩

/-- C8 as stated fails: an existing array of three elements of `2 ^ 30` bytes each, with
tracked capacity 3, and an append at index 2, which is below the capacity. The byte offset
`2 * 2 ^ 30` is not representable in an `int`: the product of line 69 overflows, so the call
does not leave the array with only element 2 changed. -/
theorem jst_appendArrayItem_existing_counterexample :
    ([1, 2, 3] : List Nat).length = 3 ∧ 2 < 3 ∧ 1073741824 ≤ INT_MAX
    ∧ jst_appendArrayItem 0 (some [1, 2, 3]) 2 3 (some 7) 1073741824 (.fail 12)
        = .error .signedOverflow
    ∧ jst_appendArrayItem 0 (some [1, 2, 3]) 2 3 (some 7) 1073741824 (.fail 12)
        ≠ .ok ⟨some [1, 2, 7], 3⟩ :=
  ⟨rfl, by decide, by decide, rfl, fun h => by cases h⟩

/-- C9 (defect in the code): the growth path reallocates to `*arlen + 5` elements whatever
the index is. On an existing one-element array of capacity 1, for every stride that keeps
the byte offset `10 * item_size_in_bytes` within `INT_MAX`, an append at index 10 makes the
buffer 6 elements long and then writes element 10 outside of it; the same call at index 5
shows the capacity the growth path reaches, 6, which is below `10 + 1`. -/
theorem jst_appendArrayItem_far_index_out_of_bounds (item_size_in_bytes : Nat)
    (junk : Nat → Nat) (hoff : 10 * item_size_in_bytes ≤ INT_MAX) :
    jst_appendArrayItem 0 (some [1]) 10 1 (some 7) item_size_in_bytes (.ok junk)
        = .error (.outOfBounds 10 6)
    ∧ jst_appendArrayItem 0 (some [1]) 5 1 (some 7) item_size_in_bytes (.ok junk)
        = .ok ⟨some [1, 0, 0, 0, 0, 7], 6⟩ := by
  have h5 : 5 * item_size_in_bytes ≤ INT_MAX :=
    Nat.le_trans (Nat.mul_le_mul_right _ (by decide)) hoff
  constructor
  · rw [jst_appendArrayItem_in_range 0 (some [1]) 10 1 (some 7) item_size_in_bytes (.ok junk)
      (fun h => by cases h) hoff]
    rfl
  · rw [jst_appendArrayItem_in_range 0 (some [1]) 5 1 (some 7) item_size_in_bytes (.ok junk)
      (fun h => by cases h) h5]
    rfl

/-- The failing input of C9 with elements of 4 bytes and a reallocation whose new cells
hold `9`. -/
theorem jst_appendArrayItem_far_index_out_of_bounds_witness :
    10 * 4 ≤ INT_MAX
    ∧ jst_appendArrayItem 0 (some [1]) 10 1 (some 7) 4 (.ok fun _ => 9)
        = .error (.outOfBounds 10 6)
    ∧ jst_appendArrayItem 0 (some [1]) 5 1 (some 7) 4 (.ok fun _ => 9)
        = .ok ⟨some [1, 0, 0, 0, 0, 7], 6⟩ :=
  ⟨by decide, jst_appendArrayItem_far_index_out_of_bounds 4 (fun _ => 9) (by decide)⟩

/-- C10 (defect in the code, the one of C7): one append (`N = 1`) of an absent item at
index 0, starting from an absent array with capacity value `0`, whatever the stride. The
creation path allocates one element and never stores the size into `*arlen`: the call
returns a one-element array and the tracked capacity is still `0`, which is below
`N = 1`. -/
theorem appendItems_capacity_below_count :
    ∀ (item_size_in_bytes : Nat) (junk : Nat → Nat),
      appendItems 0 item_size_in_bytes (fun _ => .ok junk) [none] 0 none 0
          = .ok ⟨some [0], 0⟩
      ∧ ¬ (([none] : List (Option Nat)).length ≤ 0) := by
  intro item_size_in_bytes junk
  refine ⟨?_, by decide⟩
  simp only [appendItems]
  rw [jst_appendArrayItem_in_range 0 none 0 0 none item_size_in_bytes (.ok junk)
    (fun _ => by decide) (by rw [Nat.zero_mul]; exact Nat.zero_le _)]
  rfl

/-! ## Pointer collection: `jst_RemovePointer` -/

theorem findLoop_absent (target : Nat) (es rest : List Nat) (p : Nat)
    (hes : ∀ e ∈ es, e ≠ 0) (habs : target ∉ es) :
    findLoop target (es ++ 0 :: rest) p = .ok (p + es.length) := by
  induction es generalizing p with
  | nil => simp [findLoop]
  | cons e es ih =>
    have h0 : e ≠ 0 := hes e (by simp)
    have h1 : e ≠ target := fun h => habs (by simp [h])
    have ih2 := ih (p + 1) (fun x hx => hes x (by simp [hx])) (fun h => habs (by simp [h]))
    rw [List.cons_append, findLoop, if_pos ⟨h0, h1⟩, ih2, List.length_cons]
    exact congrArg Except.ok (by omega)

theorem shiftLoop_stuck (x y : Nat) (rest : List Nat) (hy : y ≠ 0) (fuel : Nat) :
    shiftLoop 0 fuel (x :: y :: rest) = none ∨ x = 0 := by
  induction fuel generalizing x with
  | zero =>
    by_cases hx : x = 0
    · exact Or.inr hx
    · left
      simp [shiftLoop, hx]
  | succ n ih =>
    by_cases hx : x = 0
    · exact Or.inr hx
    · left
      have := ih y
      simp only [hy, or_false] at this
      simp [shiftLoop, hx, this]

/-- C3 (defect in the code): the shifting loop `while ( *p ) { *p = *( p + 1 ) ; }` never
advances `p`. On the collection `[1, 2, NULL]` with target `1` (found at the first
position, a live entry after it) the call does not return: whatever number of iterations
is allowed, the loop condition still holds afterwards. -/
theorem jst_RemovePointer_not_last_never_returns :
    ∀ fuel : Nat, jst_RemovePointer fuel [1, 2, 0] 1 = none := by
  intro fuel
  have h := shiftLoop_stuck 1 2 [0] (by decide) fuel
  simp only [one_ne_zero, or_false] at h
  simp [jst_RemovePointer, findLoop, h]

/-- C4: when the target equals none of the live entries (a null target included), the call
returns `NULL` and leaves every slot as it was, whatever the iteration bound; a second call
with the same target on the collection the first call left does the same. -/
theorem jst_RemovePointer_absent (fuel : Nat) (es rest : List Nat) (target : Nat)
    (hes : ∀ e ∈ es, e ≠ 0) (habs : target ∉ es) :
    jst_RemovePointer fuel (es ++ 0 :: rest) target = some (.ok ⟨0, es ++ 0 :: rest⟩)
    ∧ removeTwice fuel (es ++ 0 :: rest) target = some (.ok (0, 0, es ++ 0 :: rest)) := by
  have h : jst_RemovePointer fuel (es ++ 0 :: rest) target
      = some (.ok ⟨0, es ++ 0 :: rest⟩) := by
    have hz : (es ++ 0 :: rest).getD es.length 0 = 0 := by
      rw [List.getD_eq_getElem?_getD, List.getElem?_append_right (le_refl _)]
      simp
    simp only [jst_RemovePointer, findLoop_absent target es rest 0 hes habs, Nat.zero_add, hz,
      if_true]
  exact ⟨h, by simp [removeTwice, h]⟩

/-- Witness for C4: the target `5` and the null target are not in `[1, 2, NULL, 9]`. -/
theorem jst_RemovePointer_absent_witness :
    (jst_RemovePointer 0 [1, 2, 0, 9] 5 = some (.ok ⟨0, [1, 2, 0, 9]⟩)
      ∧ removeTwice 0 [1, 2, 0, 9] 5 = some (.ok (0, 0, [1, 2, 0, 9])))
    ∧ (jst_RemovePointer 3 [1, 2, 0, 9] 0 = some (.ok ⟨0, [1, 2, 0, 9]⟩)
      ∧ removeTwice 3 [1, 2, 0, 9] 0 = some (.ok (0, 0, [1, 2, 0, 9]))) :=
  ⟨jst_RemovePointer_absent 0 [1, 2] [9] 5 (by decide) (by decide),
   jst_RemovePointer_absent 3 [1, 2] [9] 0 (by decide) (by decide)⟩

/-! ## Pointer collection: `jst_appendPointer` -/

theorem countLoop_live (es rest : List Nat) (count : Nat) (hes : ∀ e ∈ es, e ≠ 0) :
    countLoop (es ++ 0 :: rest) count = .ok (count + es.length) := by
  induction es generalizing count with
  | nil => simp [countLoop]
  | cons e es ih =>
    have h0 : e ≠ 0 := hes e (by simp)
    have ih2 := ih (count + 1) (fun x hx => hes x (by simp [hx]))
    rw [List.cons_append, countLoop, if_pos h0, ih2, List.length_cons]
    exact congrArg Except.ok (by omega)

/-- C5: append to a well-formed collection with live entries `es`, null at slot
`k = es.length` and tracked capacity `c` equal to the real size. With a successful allocator
the call returns the caller's updated handle, whose first `k + 2` slots are the old live
entries, the item and null; the buffer gets longer exactly when `k + 1 ≥ c`, and then the
new size and tracked capacity are `k + 5`; otherwise size and capacity stay `c`. -/
theorem jst_appendPointer_existing (es rest : List Nat) (c item : Nat) (junk : Nat → Nat)
    (hes : ∀ e ∈ es, e ≠ 0) (hc : (es ++ 0 :: rest).length = c) :
    ∃ arr : List Nat,
      jst_appendPointer (some (es ++ 0 :: rest)) c item (.ok junk)
        = .ok ⟨some arr, some arr, if es.length + 1 ≥ c then es.length + 5 else c⟩
      ∧ arr.take (es.length + 2) = es ++ [item, 0]
      ∧ arr.length = (if es.length + 1 ≥ c then es.length + 5 else c)
      ∧ ((es ++ 0 :: rest).length < arr.length ↔ es.length + 1 ≥ c) := by
  subst hc
  cases rest with
  | nil =>
    refine ⟨es ++ item :: 0 :: (List.range' (es.length + 2) 3).map junk, ?_, ?_, ?_, ?_⟩
    · have hr : (List.range' (es.length + 1) (es.length + 5 - (es.length + 1))).map junk
          = junk (es.length + 1) :: (List.range' (es.length + 2) 3).map junk := by
        have : es.length + 5 - (es.length + 1) = 4 := by omega
        rw [this]
        simp [List.range']
      have ht : List.take (es.length + 5) (es ++ [0]) = es ++ [0] :=
        List.take_of_length_le (by simp)
      simp only [jst_appendPointer, countLoop_live es [] 0 hes, Nat.zero_add,
        DYNAMIC_ARRAY_LENGTH_INCREMENT, List.length_append, List.length_singleton, le_refl,
        if_true, realloc_ok_eq, ht, hr, ge_iff_le]
      have e1 : storeAt (es ++ [0] ++ junk (es.length + 1)
            :: List.map junk (List.range' (es.length + 2) 3)) es.length item
          = .ok (es ++ item :: junk (es.length + 1)
            :: List.map junk (List.range' (es.length + 2) 3)) := by
        have := set_append_here es 0 item
          (junk (es.length + 1) :: List.map junk (List.range' (es.length + 2) 3))
        simp only [storeAt, List.append_assoc, List.singleton_append, this]
        simp
      have e2 : storeAt (es ++ item :: junk (es.length + 1)
            :: List.map junk (List.range' (es.length + 2) 3)) (es.length + 1) 0
          = .ok (es ++ item :: 0 :: List.map junk (List.range' (es.length + 2) 3)) := by
        simp only [storeAt, set_append_next]
        simp
      rw [e1]
      simp only [e2]
    · have := @List.take_left' _ (es ++ [item, 0])
        (List.map junk (List.range' (es.length + 2) 3)) (es.length + 2) (by simp)
      simpa using this
    · simp
    · simp
  | cons r rest =>
    refine ⟨es ++ item :: 0 :: rest, ?_, ?_, ?_, ?_⟩
    · have hlt : ¬ (es ++ 0 :: r :: rest).length ≤ es.length + 1 := by simp
      have e1 : storeAt (es ++ 0 :: r :: rest) es.length item
          = .ok (es ++ item :: r :: rest) := by
        simp only [storeAt, set_append_here]
        simp
      have e2 : storeAt (es ++ item :: r :: rest) (es.length + 1) 0
          = .ok (es ++ item :: 0 :: rest) := by
        simp only [storeAt, set_append_next]
        simp
      simp only [jst_appendPointer, countLoop_live es (r :: rest) 0 hes, Nat.zero_add, hlt,
        if_false, e1, e2, ge_iff_le]
    · have := @List.take_left' _ (es ++ [item, 0]) rest (es.length + 2) (by simp)
      simpa using this
    · simp
    · simp

/-- Witness for C5: `[1, 2, NULL]` of capacity 3 grows to capacity 7; `[1, NULL, 9, 9]` of
capacity 4 is written in place. -/
theorem jst_appendPointer_existing_witness :
    (∃ arr : List Nat,
      jst_appendPointer (some [1, 2, 0]) 3 7 (.ok fun _ => 9) = .ok ⟨some arr, some arr, 7⟩
      ∧ arr.take 4 = [1, 2, 7, 0] ∧ arr.length = 7 ∧ (3 < arr.length ↔ 2 + 1 ≥ 3))
    ∧ (∃ arr : List Nat,
      jst_appendPointer (some [1, 0, 9, 9]) 4 7 (.ok fun _ => 9) = .ok ⟨some arr, some arr, 4⟩
      ∧ arr.take 3 = [1, 7, 0] ∧ arr.length = 4 ∧ (4 < arr.length ↔ 1 + 1 ≥ 4)) :=
  ⟨jst_appendPointer_existing [1, 2] [] 3 7 (fun _ => 9) (by decide) rfl,
   jst_appendPointer_existing [1] [9, 9] 4 7 (fun _ => 9) (by decide) rfl⟩

/-- C6 (defect in the code): the creation path replaces only a capacity of `0` by the
increment. From an absent handle with capacity `1` the first append allocates one slot and
stores the item there: the logical count is then `1`, equal to the tracked capacity, and
no slot holds the sentinel. The next append reads slot `1` of that one-slot block. -/
theorem jst_appendPointer_capacity_one_no_sentinel :
    ∀ junk : Nat → Nat,
      jst_appendPointer none 1 7 (.ok junk) = .ok ⟨some [7], some [7], 1⟩
      ∧ jst_appendPointer (some [7]) 1 8 (.ok junk) = .error (.outOfBounds 1 1) := by
  intro junk
  constructor <;> rfl

/-! ## String concatenation: `jst_append` -/

theorem strlenLoop_cstr (t rest : List Nat) (n : Nat) (ht : ∀ ch ∈ t, ch ≠ 0) :
    strlenLoop (t ++ 0 :: rest) n = .ok (n + t.length) := by
  induction t generalizing n with
  | nil => simp [strlenLoop]
  | cons c t ih =>
    have h0 : c ≠ 0 := ht c (by simp)
    rw [List.cons_append, strlenLoop, if_pos h0, ih (n + 1) (fun x hx => ht x (by simp [hx])),
      List.length_cons]
    exact congrArg Except.ok (by omega)

theorem copyChars_eq (pre : List Nat) (s : CStr) (x : List Nat) (h : s.length ≤ x.length) :
    copyChars (pre ++ x) pre.length s = .ok (pre ++ s ++ x.drop s.length) := by
  induction s generalizing pre x with
  | nil => simp [copyChars]
  | cons c s ih =>
    cases x with
    | nil => simp at h
    | cons y x =>
      simp only [List.length_cons, Nat.add_le_add_iff_right] at h
      have e1 : storeAt (pre ++ y :: x) pre.length c = .ok ((pre ++ [c]) ++ x) := by
        simp only [storeAt, set_append_here]
        simp
      have := ih (pre ++ [c]) x h
      simp only [List.length_append, List.length_singleton] at this
      simp only [copyChars, e1, this]
      simp

theorem copyStrings_eq (strs : List CStr) (more : List StrPtr) (i : Nat) (pre x : List Nat)
    (h : strs.flatten.length ≤ x.length) :
    copyStrings (strs.map some ++ none :: more) i (pre ++ x) pre.length
      = .ok (pre ++ strs.flatten ++ x.drop strs.flatten.length,
          pre.length + strs.flatten.length) := by
  induction strs generalizing i pre x with
  | nil => simp [copyStrings]
  | cons s strs ih =>
    rw [List.flatten_cons, List.length_append] at h
    have e1 := copyChars_eq pre s x (by omega)
    have e2 := ih (i + 1) (pre ++ s) (x.drop s.length) (by rw [List.length_drop]; omega)
    rw [List.length_append] at e2
    simp only [List.map_cons, List.cons_append, copyStrings, e1, List.append_eq]
    rw [e2, List.flatten_cons, List.length_append, List.drop_drop]
    simp only [List.append_assoc, Nat.add_assoc]


theorem flatten_nonEmptyArgs (args : List CStr) :
    (nonEmptyArgs args).flatten = args.flatten := by
  induction args with
  | nil => rfl
  | cons s rest ih =>
    by_cases hs : s = []
    · simp [nonEmptyArgs, hs, ih]
    · simp [nonEmptyArgs, hs, ih]

theorem collectArgs_ok (tableJunk : Nat → Nat → StrPtr) (args : List CStr)
    (table : List StrPtr) (i total : Nat) (hi : i ≤ table.length) :
    ∃ table2 : List StrPtr,
      collectArgs (fun k => .ok (tableJunk k)) args ⟨some table, i, table.length, total, 0⟩
        = .ok ⟨some table2, i + (nonEmptyArgs args).length, table2.length,
            total + args.flatten.length, 0⟩
      ∧ i + (nonEmptyArgs args).length ≤ table2.length
      ∧ table2.take (i + (nonEmptyArgs args).length)
          = table.take i ++ (nonEmptyArgs args).map some := by
  induction args generalizing table i total with
  | nil => exact ⟨table, by simp [collectArgs, nonEmptyArgs], by simpa [nonEmptyArgs] using hi,
      by simp [nonEmptyArgs]⟩
  | cons s rest ih =>
    by_cases hs : s = []
    · subst hs
      obtain ⟨table2, h1, h2, h3⟩ := ih table i total hi
      have hf : nonEmptyArgs ([] :: rest) = nonEmptyArgs rest := by simp [nonEmptyArgs]
      refine ⟨table2, ?_, ?_, ?_⟩
      · simp only [collectArgs, ne_eq, not_true_eq_false, if_false, h1, hf]
        simp
      · rw [hf]; exact h2
      · rw [hf]; exact h3
    · obtain ⟨arr2, g1, g2, g3, -⟩ :=
        appendArrayItem_tracked none table i (some (some s)) (tableJunk (i + 1)) hi
      obtain ⟨table2, h1, h2, h3⟩ := ih arr2 (i + 1) (total + s.length) (by omega)
      have hf : nonEmptyArgs (s :: rest) = s :: nonEmptyArgs rest := by simp [nonEmptyArgs, hs]
      refine ⟨table2, ?_, ?_, ?_⟩
      · simp only [collectArgs, ne_eq, hs, not_false_eq_true, if_true, g1, h1, hf,
          List.length_cons, List.flatten_cons, List.length_append]
        simp only [Nat.add_assoc, Nat.add_comm 1]
      · rw [hf, List.length_cons]
        omega
      · rw [hf, List.length_cons, List.map_cons]
        rw [show i + ((nonEmptyArgs rest).length + 1)
          = i + 1 + (nonEmptyArgs rest).length by omega, h3, g3]
        simp


/-- With a successful allocator the argument table of `jst_append` ends up holding the
non-empty arguments followed by a null entry. -/
theorem append_table_ok (tableJunk : Nat → Nat → StrPtr) (args : List CStr) (total : Nat) :
    ∃ (table2 : List StrPtr) (more : List StrPtr) (table3 : List StrPtr),
      collectArgs (fun k => .ok (tableJunk k)) args
          ⟨some ((List.range 10).map (tableJunk 0)), 0, 10, total, 0⟩
        = .ok ⟨some table2, (nonEmptyArgs args).length, table2.length,
            total + args.flatten.length, 0⟩
      ∧ appendArrayItemInRange none (some table2) (nonEmptyArgs args).length table2.length
          (some none) (.ok (tableJunk ((nonEmptyArgs args).length + 1)))
        = .ok ⟨some table3, table3.length⟩
      ∧ table3 = (nonEmptyArgs args).map some ++ none :: more := by
  obtain ⟨table2, h1, h2, h3⟩ :=
    collectArgs_ok tableJunk args ((List.range 10).map (tableJunk 0)) 0 total (by simp)
  simp only [List.length_map, List.length_range, Nat.zero_add, List.take_zero,
    List.nil_append] at h1 h2 h3
  obtain ⟨table3, g1, g2, g3, -⟩ :=
    appendArrayItem_tracked none table2 (nonEmptyArgs args).length (some none)
      (tableJunk ((nonEmptyArgs args).length + 1)) h2
  refine ⟨table2, table3.drop ((nonEmptyArgs args).length + 1), table3, h1, g1, ?_⟩
  rw [h3] at g3
  have := List.take_append_drop ((nonEmptyArgs args).length + 1) table3
  rw [g3] at this
  simpa using this.symm

theorem append_copy_ok (strs : List CStr) (more : List StrPtr) (pre x : List Nat)
    (h : strs.flatten.length + 1 ≤ x.length) :
    ∃ (y : Nat) (tail : List Nat),
      copyStrings (strs.map some ++ none :: more) 0 (pre ++ x) pre.length
        = .ok (pre ++ strs.flatten ++ y :: tail, pre.length + strs.flatten.length)
      ∧ storeAt (pre ++ strs.flatten ++ y :: tail) (pre.length + strs.flatten.length) 0
        = .ok (pre ++ strs.flatten ++ 0 :: tail) := by
  obtain ⟨y, tail, hy⟩ : ∃ y tail, x.drop strs.flatten.length = y :: tail := by
    cases hd : x.drop strs.flatten.length with
    | nil =>
      have := congrArg List.length hd
      rw [List.length_drop, List.length_nil] at this
      omega
    | cons y tail => exact ⟨y, tail, rfl⟩
  refine ⟨y, tail, ?_, ?_⟩
  · rw [copyStrings_eq strs more 0 pre x (by omega), hy]
  · have := set_append_here (pre ++ strs.flatten) y 0 tail
    simp only [List.length_append] at this
    simp only [storeAt, this]
    simp

theorem strlen_cstr (t rest : List Nat) (ht : ∀ ch ∈ t, ch ≠ 0) :
    strlen (t ++ 0 :: rest) = .ok t.length := by
  rw [strlen, strlenLoop_cstr t rest 0 ht, Nat.zero_add]


theorem malloc_ok_eq {α : Type} (size : Nat) (junk : Nat → α) :
    jst_malloc size (.ok junk) = some ((List.range size).map junk) := rfl

/-- C1: with a successful allocator, for an absent target (then `t` is empty) or a target
block that starts with the string `t` and its terminator and is at least as long as the
tracked capacity `c`, `jst_append` returns a buffer that holds `t`, then the arguments in
order (empty ones add nothing), then a terminator; read as a C string the buffer is exactly
`t` followed by the arguments. -/
theorem jst_append_content (target : Option (List Nat)) (bufsize : Option Nat)
    (args : List CStr) (t : CStr) (tableJunk : Nat → Nat → StrPtr) (targetJunk : Nat → Nat)
    (htarget : (target = none ∧ t = [])
      ∨ ∃ rest c, target = some (t ++ 0 :: rest) ∧ bufsize = some c
          ∧ c ≤ (t ++ 0 :: rest).length)
    (ht : ∀ ch ∈ t, ch ≠ 0) (hargs : ∀ s ∈ args, ∀ ch ∈ s, ch ≠ 0) :
    ∃ (tail : List Nat) (bs : Option Nat),
      jst_append target bufsize args (fun k => .ok (tableJunk k)) (.ok targetJunk)
        = .ok ⟨some (t ++ args.flatten ++ 0 :: tail), bs⟩
      ∧ strlen (t ++ args.flatten ++ 0 :: tail) = .ok (t ++ args.flatten).length := by
  have hlen : ∀ tail : List Nat,
      strlen (t ++ args.flatten ++ 0 :: tail) = .ok (t ++ args.flatten).length := by
    intro tail
    apply strlen_cstr
    intro ch hch
    rcases List.mem_append.mp hch with h | h
    · exact ht ch h
    · obtain ⟨s, hs, hcs⟩ := List.mem_flatten.mp h
      exact hargs s hs ch hcs
  rcases htarget with ⟨rfl, rfl⟩ | ⟨rest, c, rfl, rfl, hc⟩
  · obtain ⟨table2, more, table3, h1, h2, h3⟩ := append_table_ok tableJunk args (0 + 1)
    subst h3
    cases bufsize with
    | none =>
      obtain ⟨y, tail, k1, k2⟩ := append_copy_ok (nonEmptyArgs args) more []
        ((List.range (0 + 1 + args.flatten.length)).map targetJunk)
        (by rw [flatten_nonEmptyArgs]; simp; omega)
      rw [flatten_nonEmptyArgs] at k1 k2
      refine ⟨tail, none, ?_, hlen tail⟩
      simp only [List.nil_append, List.length_nil, Nat.zero_add] at k1 k2
      simp only [jst_append, malloc_ok_eq, h1, h2, Alloc.errno, k1, k2, appendEnd,
        List.nil_append, Nat.zero_add]
      simp
    | some b =>
      obtain ⟨y, tail, k1, k2⟩ := append_copy_ok (nonEmptyArgs args) more []
        ((List.range (if b > 0 + 1 + args.flatten.length then b
          else 0 + 1 + args.flatten.length)).map targetJunk)
        (by rw [flatten_nonEmptyArgs]; simp; split <;> omega)
      rw [flatten_nonEmptyArgs] at k1 k2
      refine ⟨tail, some (if b > 0 + 1 + args.flatten.length then b
          else 0 + 1 + args.flatten.length), ?_, hlen tail⟩
      simp only [List.nil_append, List.length_nil, Nat.zero_add] at k1 k2
      simp only [jst_append, malloc_ok_eq, h1, h2, Alloc.errno, k1, k2, appendEnd,
        List.nil_append, Nat.zero_add]
      simp
  · obtain ⟨table2, more, table3, h1, h2, h3⟩ := append_table_ok tableJunk args (t.length + 1)
    subst h3
    have hs := strlen_cstr t rest ht
    by_cases hb : c < t.length + 1 + args.flatten.length
    · -- the target is reallocated
      have hr := realloc_ok_eq (t ++ 0 :: rest) (t.length + 1 + args.flatten.length) targetJunk
      obtain ⟨x, hx, hxl⟩ : ∃ x : List Nat,
          List.take (t.length + 1 + args.flatten.length) (t ++ 0 :: rest)
            ++ List.map targetJunk (List.range' (t ++ 0 :: rest).length
                (t.length + 1 + args.flatten.length - (t ++ 0 :: rest).length))
            = t ++ x ∧ args.flatten.length + 1 ≤ x.length := by
        refine ⟨List.take (1 + args.flatten.length) (0 :: rest)
            ++ List.map targetJunk (List.range' (t ++ 0 :: rest).length
                (t.length + 1 + args.flatten.length - (t ++ 0 :: rest).length)), ?_, ?_⟩
        · rw [List.take_append_eq_append_take, List.take_of_length_le (by omega)]
          rw [show t.length + 1 + args.flatten.length - t.length = 1 + args.flatten.length by
            omega]
          simp
        · simp only [List.length_append, List.length_take, List.length_map, List.length_range',
            List.length_cons]
          omega
      rw [hx] at hr
      obtain ⟨y, tail, k1, k2⟩ := append_copy_ok (nonEmptyArgs args) more t x
        (by rw [flatten_nonEmptyArgs]; omega)
      rw [flatten_nonEmptyArgs] at k1 k2
      refine ⟨tail, some (t.length + 1 + args.flatten.length), ?_, hlen tail⟩
      simp only [jst_append, malloc_ok_eq, hs, h1, h2, hb, if_true, hr, k1, k2, appendEnd]
      simp
    · -- the target is written in place
      obtain ⟨y, tail, k1, k2⟩ := append_copy_ok (nonEmptyArgs args) more t (0 :: rest)
        (by
          rw [List.length_append, List.length_cons] at hc
          rw [flatten_nonEmptyArgs, List.length_cons]
          omega)
      rw [flatten_nonEmptyArgs] at k1 k2
      refine ⟨tail, some c, ?_, hlen tail⟩
      simp only [jst_append, malloc_ok_eq, hs, h1, h2, hb, if_false, k1, k2, appendEnd]
      simp

/-- Witness for C1: the two calls the specification names.
`jst_append(NULL, &0, "foo", "", "bar")` and `jst_append("hello", &6, " world")`. -/
theorem jst_append_content_witness :
    (∃ (tail : List Nat) (bs : Option Nat),
      jst_append none (some 0) [[102, 111, 111], [], [98, 97, 114]]
          (fun _ => .ok fun _ => none) (.ok fun _ => 9)
        = .ok ⟨some (102 :: 111 :: 111 :: 98 :: 97 :: 114 :: 0 :: tail), bs⟩
      ∧ strlen (102 :: 111 :: 111 :: 98 :: 97 :: 114 :: 0 :: tail) = .ok 6)
    ∧ (∃ (tail : List Nat) (bs : Option Nat),
      jst_append (some [104, 101, 108, 108, 111, 0]) (some 6) [[32, 119, 111, 114, 108, 100]]
          (fun _ => .ok fun _ => none) (.ok fun _ => 9)
        = .ok ⟨some (104 :: 101 :: 108 :: 108 :: 111 :: 32 :: 119 :: 111 :: 114 :: 108 :: 100
            :: 0 :: tail), bs⟩
      ∧ strlen (104 :: 101 :: 108 :: 108 :: 111 :: 32 :: 119 :: 111 :: 114 :: 108 :: 100
            :: 0 :: tail) = .ok 11) :=
  ⟨jst_append_content none (some 0) [[102, 111, 111], [], [98, 97, 114]] []
      (fun _ _ => none) (fun _ => 9) (Or.inl ⟨rfl, rfl⟩) (by decide) (by decide),
   jst_append_content (some [104, 101, 108, 108, 111, 0]) (some 6)
      [[32, 119, 111, 114, 108, 100]] [104, 101, 108, 108, 111]
      (fun _ _ => none) (fun _ => 9) (Or.inr ⟨[], 6, rfl, rfl, by decide⟩) (by decide)
      (by decide)⟩

/-! ## String packing: `jst_packStringArray` -/

theorem ptrCells_length (P : Nat) (v : Option Nat) : (ptrCells P v).length = P := by
  simp [ptrCells]

theorem strCells_length (s : CStr) : (strCells s).length = s.length + 1 := by
  simp [strCells]

theorem tableCells_length (P : Nat) (vals : List (Option Nat)) :
    (tableCells P vals).length = vals.length * P := by
  induction vals with
  | nil => simp [tableCells]
  | cons v rest ih =>
    rw [tableCells, List.length_append, ptrCells_length, ih, List.length_cons, Nat.succ_mul]
    omega

theorem tableCells_append (P : Nat) (xs ys : List (Option Nat)) :
    tableCells P (xs ++ ys) = tableCells P xs ++ tableCells P ys := by
  induction xs with
  | nil => simp [tableCells]
  | cons v rest ih => simp [tableCells, ih]

theorem dataCells_append (xs ys : List CStr) :
    dataCells (xs ++ ys) = dataCells xs ++ dataCells ys := by
  induction xs with
  | nil => simp [dataCells]
  | cons v rest ih => simp [dataCells, ih]

theorem packOffsets_length (base : Nat) (strs : List CStr) :
    (packOffsets base strs).length = strs.length := by
  induction strs generalizing base with
  | nil => simp [packOffsets]
  | cons s rest ih => simp [packOffsets, ih]

theorem packOffsets_append (base : Nat) (xs ys : List CStr) :
    packOffsets base (xs ++ ys)
      = packOffsets base xs ++ packOffsets (base + (dataCells xs).length) ys := by
  induction xs generalizing base with
  | nil => simp [packOffsets, dataCells]
  | cons s rest ih =>
    have e : base + (dataCells (s :: rest)).length
        = base + s.length + 1 + (dataCells rest).length := by
      rw [dataCells, List.length_append, strCells_length]
      omega
    rw [List.cons_append, packOffsets, packOffsets, ih (base + s.length + 1), e,
      List.cons_append]

theorem sizeLoop_eq (P : Nat) (strs : List CStr) (total i : Nat) :
    sizeLoop P strs total i
      = (total + strs.length * P + (dataCells strs).length, i + strs.length + 1) := by
  induction strs generalizing total i with
  | nil => simp [sizeLoop, dataCells]
  | cons s rest ih =>
    simp only [sizeLoop, ih, dataCells, List.length_append, strCells_length, List.length_cons,
      Nat.succ_mul, Prod.mk.injEq]
    constructor <;> omega

theorem storeAt_mid {α : Type} (x : List α) (y v : α) (z : List α) :
    storeAt (x ++ y :: z) x.length v = .ok (x ++ v :: z) := by
  simp only [storeAt, set_append_here]
  simp

theorem packCopy_eq (x : List Cell) (s : CStr) (y z : List Cell)
    (hy : y.length = s.length + 1) :
    packCopy (x ++ y ++ z) x.length s = .ok (x ++ strCells s ++ z, x.length + s.length + 1) := by
  induction s generalizing x y with
  | nil =>
    obtain ⟨c, rfl⟩ : ∃ c, y = [c] := by
      cases y with
      | nil => simp at hy
      | cons c t =>
        cases t with
        | nil => exact ⟨c, rfl⟩
        | cons _ _ => simp at hy
    have := storeAt_mid x c (Cell.chr 0) z
    simp only [List.append_assoc, List.singleton_append, packCopy, this, strCells, List.map_nil,
      List.nil_append, List.length_nil, Nat.add_zero]
  | cons c s ih =>
    cases y with
    | nil => simp at hy
    | cons d y =>
      simp only [List.length_cons, Nat.add_right_cancel_iff] at hy
      have h1 := storeAt_mid x d (Cell.chr c) (y ++ z)
      have h2 := ih (x ++ [Cell.chr c]) y hy
      simp only [List.length_append, List.length_singleton, List.append_assoc,
        List.singleton_append] at h2
      simp only [List.append_assoc, List.cons_append, packCopy, h1]
      rw [show x ++ Cell.chr c :: (y ++ z) = x ++ (Cell.chr c :: y ++ z) by simp, h2]
      simp [strCells, Nat.add_assoc, Nat.add_comm 1]

theorem storePtr_eq (P : Nat) (a b c : List Cell) (i : Nat) (v : Option Nat)
    (ha : a.length = i * P) (hb : b.length = P) :
    storePtr P (a ++ b ++ c) i v = .ok (a ++ ptrCells P v ++ c) := by
  have h1 : i * P + P ≤ (a ++ b ++ c).length := by
    simp only [List.length_append]; omega
  have h2 : List.take (i * P) (a ++ b ++ c) = a := by
    rw [List.append_assoc, ← ha]; exact List.take_left _ _
  have h3 : List.drop (i * P + P) (a ++ b ++ c) = c := by
    rw [show i * P + P = (a ++ b).length by simp only [List.length_append]; omega]
    exact List.drop_left _ _
  simp only [storePtr, h1, if_true, h2, h3]


theorem split_length {α : Type} (l : List α) (n m : Nat) (h : l.length = n + m) :
    ∃ l1 l2 : List α, l = l1 ++ l2 ∧ l1.length = n ∧ l2.length = m :=
  ⟨l.take n, l.drop n, (List.take_append_drop n l).symm,
    by rw [List.length_take]; omega, by rw [List.length_drop]; omega⟩

/-- The second loop of `jst_packStringArray` on a block split into the slots already
written `A`, the slots `B` of the strings still to copy, the rest of the table `E`, the
string bytes already written `C`, the room `D1` for the strings still to copy, and the rest
`D2`. -/
theorem packLoop_eq (P : Nat) (rest : List CStr) (i temp : Nat) (A B E C D1 D2 : List Cell)
    (hA : A.length = i * P) (hB : B.length = rest.length * P)
    (hD : D1.length = (dataCells rest).length)
    (htemp : temp = A.length + (B.length + (E.length + C.length))) :
    packLoop P rest i (A ++ (B ++ (E ++ (C ++ (D1 ++ D2))))) temp
      = .ok (A ++ (tableCells P ((packOffsets temp rest).map some)
              ++ (E ++ (C ++ (dataCells rest ++ D2)))), i + rest.length) := by
  induction rest generalizing i temp A B C D1 with
  | nil =>
    have hB0 : B = [] := List.length_eq_zero.mp (by simpa using hB)
    have hD0 : D1 = [] := List.length_eq_zero.mp (by simpa [dataCells] using hD)
    subst hB0 hD0
    simp [packLoop, packOffsets, tableCells, dataCells]
  | cons s rest ih =>
    obtain ⟨B1, B2, rfl, hB1, hB2⟩ := split_length B P (rest.length * P)
      (by rw [hB, List.length_cons, Nat.succ_mul]; omega)
    obtain ⟨Ds, D1', rfl, hDs, hD1'⟩ := split_length D1 (s.length + 1) (dataCells rest).length
      (by rw [hD, dataCells, List.length_append, strCells_length])
    have e1 := storePtr_eq P A B1 (B2 ++ (E ++ (C ++ (Ds ++ D1' ++ D2)))) i (some temp) hA hB1
    simp only [List.append_assoc] at e1
    have hx : (A ++ (ptrCells P (some temp) ++ (B2 ++ (E ++ C)))).length = temp := by
      simp only [List.length_append, ptrCells_length] at htemp ⊢
      omega
    have e2 := packCopy_eq (A ++ (ptrCells P (some temp) ++ (B2 ++ (E ++ C)))) s Ds
      (D1' ++ D2) hDs
    rw [hx] at e2
    simp only [List.append_assoc] at e2
    have e3 := ih (i + 1) (temp + s.length + 1) (A ++ ptrCells P (some temp)) B2
      (C ++ strCells s) D1'
      (by rw [List.length_append, ptrCells_length, hA, Nat.succ_mul]) hB2 hD1'
      (by
        simp only [List.length_append, ptrCells_length, strCells_length] at htemp ⊢
        omega)
    simp only [List.append_assoc] at e3
    simp only [List.append_assoc, packLoop, e1, e2, e3, packOffsets, List.map_cons, tableCells,
      dataCells, List.length_cons]
    exact congrArg Except.ok (Prod.ext rfl (by simp only; omega))


/-- The block `jst_packStringArray` builds, byte by byte: the pointer table, one slot per
string and a null slot, then the strings with their terminators. -/
theorem jst_packStringArray_layout (P : Nat) (strs : List CStr) (junk : Nat → Cell) :
    jst_packStringArray P strs (.ok junk)
      = .ok (some (tableCells P
            ((packOffsets ((strs.length + 1) * P) strs).map some ++ [none])
          ++ dataCells strs)) := by
  have hsize := sizeLoop_eq P strs P 0
  obtain ⟨BE, D1, hmem, hBE, hD1⟩ := split_length
    ((List.range (P + strs.length * P + (dataCells strs).length)).map junk)
    (strs.length * P + P) (dataCells strs).length
    (by simp only [List.length_map, List.length_range]; omega)
  obtain ⟨B, E, rfl, hB, hE⟩ := split_length BE (strs.length * P) P hBE
  have e1 := packLoop_eq P strs 0 ((strs.length + 1) * P) [] B E [] D1 [] (by simp) hB hD1
    (by simp only [List.length_nil, hB, hE, Nat.succ_mul]; omega)
  simp only [List.nil_append, List.append_nil, Nat.zero_add] at e1
  have e2 := storePtr_eq P
    (tableCells P ((packOffsets ((strs.length + 1) * P) strs).map some)) E (dataCells strs)
    strs.length none (by rw [tableCells_length, List.length_map, packOffsets_length]) hE
  simp only [List.append_assoc] at e2 hmem
  simp only [jst_packStringArray, hsize, malloc_ok_eq, hmem, Nat.zero_add, e1, e2,
    tableCells_append, tableCells, List.append_nil, List.append_assoc]

theorem ptrCells_pos (P : Nat) (v : Option Nat) (hP : 0 < P) :
    ∃ rest, ptrCells P v = Cell.ptr v 0 :: rest := by
  obtain ⟨n, rfl⟩ : ∃ n, P = n + 1 := ⟨P - 1, by omega⟩
  exact ⟨(List.range n).map (fun k => Cell.ptr v (k + 1)), by
    simp [ptrCells, List.range_succ_eq_map, Function.comp_def]⟩

theorem loadPtr_eq (P : Nat) (a c : List Cell) (i : Nat) (v : Option Nat)
    (ha : a.length = i * P) (hP : 0 < P) :
    loadPtr P (a ++ (ptrCells P v ++ c)) i = .ok v := by
  have h1 : i * P + P ≤ (a ++ (ptrCells P v ++ c)).length := by
    simp only [List.length_append, ptrCells_length]; omega
  have h2 : List.take P (List.drop (i * P) (a ++ (ptrCells P v ++ c))) = ptrCells P v := by
    rw [← ha, List.drop_left]
    exact @List.take_left' _ (ptrCells P v) c P (ptrCells_length P v)
  obtain ⟨rest, hr⟩ := ptrCells_pos P v hP
  simp only [loadPtr, h1, if_true, h2]
  rw [hr]
  simp [hr]

theorem readCStr_eq (s : CStr) (z : List Cell) (off : Nat) (hs : ∀ ch ∈ s, ch ≠ 0) :
    readCStr (strCells s ++ z) off = .ok s := by
  induction s generalizing off with
  | nil => simp [strCells, readCStr]
  | cons c s ih =>
    have hc : c ≠ 0 := hs c (by simp)
    have h := ih (off + 1) (fun x hx => hs x (by simp [hx]))
    simp only [strCells, List.map_cons, List.cons_append, readCStr, ne_eq, hc,
      not_false_eq_true, if_true, List.append_eq] at h ⊢
    rw [h]

/-- In the packed block the slot of a string holds the offset at which the bytes of that
string, and of the strings after it, start. -/
theorem packed_slot (P : Nat) (done : List CStr) (s : CStr) (todo : List CStr) (hP : 0 < P) :
    ∃ off : Nat,
      loadPtr P (tableCells P
          ((packOffsets (((done ++ s :: todo).length + 1) * P) (done ++ s :: todo)).map some
            ++ [none]) ++ dataCells (done ++ s :: todo)) done.length = .ok (some off)
      ∧ (tableCells P
          ((packOffsets (((done ++ s :: todo).length + 1) * P) (done ++ s :: todo)).map some
            ++ [none]) ++ dataCells (done ++ s :: todo)).drop off
        = strCells s ++ dataCells todo := by
  refine ⟨((done ++ s :: todo).length + 1) * P + (dataCells done).length, ?_, ?_⟩
  · rw [packOffsets_append, packOffsets]
    simp only [List.map_append, List.map_cons, tableCells_append, tableCells,
      List.append_assoc]
    exact loadPtr_eq P _ _ done.length _
      (by rw [tableCells_length, List.length_map, packOffsets_length]) hP
  · rw [dataCells_append, ← List.append_assoc]
    have hl : (tableCells P
          ((packOffsets (((done ++ s :: todo).length + 1) * P) (done ++ s :: todo)).map some
            ++ [none]) ++ dataCells done).length
        = ((done ++ s :: todo).length + 1) * P + (dataCells done).length := by
      rw [List.length_append, tableCells_length, List.length_append, List.length_map,
        packOffsets_length, List.length_singleton]
    rw [← hl, List.drop_left, dataCells]

theorem packed_null_slot (P : Nat) (strs : List CStr) (hP : 0 < P) :
    loadPtr P (tableCells P ((packOffsets ((strs.length + 1) * P) strs).map some ++ [none])
        ++ dataCells strs) strs.length = .ok none := by
  simp only [tableCells_append, tableCells, List.append_assoc, List.append_nil]
  have := loadPtr_eq P (tableCells P ((packOffsets ((strs.length + 1) * P) strs).map some))
    (dataCells strs) strs.length none
    (by rw [tableCells_length, List.length_map, packOffsets_length]) hP
  simpa using this

theorem readBackLoop_packed (P : Nat) (strs : List CStr) (hP : 0 < P)
    (hstrs : ∀ s ∈ strs, ∀ ch ∈ s, ch ≠ 0) (todo done : List CStr) (fuel : Nat)
    (hsplit : strs = done ++ todo) (hfuel : todo.length < fuel) :
    readBackLoop P (tableCells P
        ((packOffsets ((strs.length + 1) * P) strs).map some ++ [none])
        ++ dataCells strs) fuel done.length = .ok todo := by
  induction todo generalizing done fuel with
  | nil =>
    obtain ⟨f, rfl⟩ : ∃ f, fuel = f + 1 := ⟨fuel - 1, by omega⟩
    have hd : done.length = strs.length := by rw [hsplit, List.append_nil]
    rw [readBackLoop, hd, packed_null_slot P strs hP]
  | cons s todo ih =>
    obtain ⟨f, rfl⟩ : ∃ f, fuel = f + 1 := ⟨fuel - 1, by omega⟩
    obtain ⟨off, h1, h2⟩ := packed_slot P done s todo hP
    rw [← hsplit] at h1 h2
    have h3 : readCStr (strCells s ++ dataCells todo) off = .ok s :=
      readCStr_eq s _ off (hstrs s (by rw [hsplit]; simp))
    have h4 := ih (done ++ [s]) f (by rw [hsplit]; simp)
      (by simp only [List.length_cons] at hfuel; omega)
    rw [List.length_append, List.length_singleton] at h4
    rw [readBackLoop, h1]
    simp only [h2, h3, h4]


/-- C2: with a successful allocator, for a pointer size `P ≥ 1` and strings without interior
NUL, `jst_packStringArray` returns a block from which a consumer that follows the pointer
slots up to the first null slot reads back exactly the input strings in order; slot `n` is
null, and each slot `i < n` points to an offset where string `i` is read. -/
theorem jst_packStringArray_roundtrip (P : Nat) (strs : List CStr) (junk : Nat → Cell)
    (hP : 0 < P) (hstrs : ∀ s ∈ strs, ∀ ch ∈ s, ch ≠ 0) :
    ∃ block : List Cell,
      jst_packStringArray P strs (.ok junk) = .ok (some block)
      ∧ readBack P block = .ok strs
      ∧ loadPtr P block strs.length = .ok none
      ∧ ∀ (done : List CStr) (s : CStr) (todo : List CStr), strs = done ++ s :: todo →
          ∃ off : Nat, loadPtr P block done.length = .ok (some off)
            ∧ readCStr (block.drop off) off = .ok s := by
  refine ⟨_, jst_packStringArray_layout P strs junk, ?_, packed_null_slot P strs hP, ?_⟩
  · have hlen : strs.length < (tableCells P
        ((packOffsets ((strs.length + 1) * P) strs).map some ++ [none])
        ++ dataCells strs).length + 1 := by
      rw [List.length_append, tableCells_length, List.length_append, List.length_map,
        packOffsets_length, List.length_singleton]
      have : strs.length + 1 ≤ (strs.length + 1) * P := Nat.le_mul_of_pos_right _ hP
      omega
    exact readBackLoop_packed P strs hP hstrs strs [] _ rfl hlen
  · intro done s todo hsplit
    subst hsplit
    obtain ⟨off, h1, h2⟩ := packed_slot P done s todo hP
    refine ⟨off, h1, ?_⟩
    rw [h2]
    exact readCStr_eq s _ off (hstrs s (by simp))

/-- Witness for C2: packing `["a", "bb", "ccc"]` with 8-byte pointers. -/
theorem jst_packStringArray_roundtrip_witness :
    ∃ block : List Cell,
      jst_packStringArray 8 [[97], [98, 98], [99, 99, 99]] (.ok fun _ => Cell.chr 7)
        = .ok (some block)
      ∧ readBack 8 block = .ok [[97], [98, 98], [99, 99, 99]]
      ∧ loadPtr 8 block 3 = .ok none
      ∧ ∀ (done : List CStr) (s : CStr) (todo : List CStr),
          [[97], [98, 98], [99, 99, 99]] = done ++ s :: todo →
          ∃ off : Nat, loadPtr 8 block done.length = .ok (some off)
            ∧ readCStr (block.drop off) off = .ok s :=
  jst_packStringArray_roundtrip 8 [[97], [98, 98], [99, 99, 99]] (fun _ => Cell.chr 7)
    (by decide) (by decide)

/-! ## Pointer collection: removal, release and growth step -/

theorem findLoop_stop (target : Nat) (pre : List Nat) (x : Nat) (more : List Nat) (p : Nat)
    (hpre : ∀ e ∈ pre, e ≠ 0 ∧ e ≠ target) (hx : x = 0 ∨ x = target) :
    findLoop target (pre ++ x :: more) p = .ok (p + pre.length) := by
  induction pre generalizing p with
  | nil =>
    have : ¬ (x ≠ 0 ∧ x ≠ target) := by
      rcases hx with h | h <;> simp [h]
    simp [findLoop, this]
  | cons e pre ih =>
    rw [List.cons_append, findLoop, if_pos (hpre e (by simp)),
      ih (p + 1) (fun y hy => hpre y (by simp [hy])), List.length_cons]
    exact congrArg Except.ok (by omega)

theorem shiftLoop_stuck_at (pre : List Nat) (x y : Nat) (rest : List Nat) (hy : y ≠ 0)
    (fuel : Nat) :
    shiftLoop pre.length fuel (pre ++ x :: y :: rest) = none ∨ x = 0 := by
  have g0 : ∀ x : Nat, (pre ++ x :: y :: rest)[pre.length]? = some x := by
    intro x
    rw [List.getElem?_append_right (le_refl _)]
    simp
  have g1 : ∀ x : Nat, (pre ++ x :: y :: rest)[pre.length + 1]? = some y := by
    intro x
    rw [List.getElem?_append_right (by omega)]
    simp
  induction fuel generalizing x with
  | zero =>
    by_cases hx : x = 0
    · exact Or.inr hx
    · left
      rw [shiftLoop, g0]
      simp [hx]
  | succ n ih =>
    by_cases hx : x = 0
    · exact Or.inr hx
    · left
      have h := ih y
      simp only [hy, or_false] at h
      rw [shiftLoop, g0]
      simp only [hx, if_false, g1, set_append_here, h]

/-- C14 (defect in the code, the one of C3): `jst_RemovePointer` does not return when the
target is found at a position that has a live entry after it. For a collection whose
entries before the target are live and differ from it, a non-null target and a live entry
`y` right after it, whatever number of iterations of the shifting loop is allowed the loop
condition still holds afterwards. -/
theorem jst_RemovePointer_diverges (pre : List Nat) (target y : Nat) (rest : List Nat)
    (hpre : ∀ e ∈ pre, e ≠ 0 ∧ e ≠ target) (ht : target ≠ 0) (hy : y ≠ 0) :
    ∀ fuel : Nat, jst_RemovePointer fuel (pre ++ target :: y :: rest) target = none := by
  intro fuel
  have h1 := findLoop_stop target pre target (y :: rest) 0 hpre (Or.inr rfl)
  have h2 : (pre ++ target :: y :: rest).getD pre.length 0 = target := by
    rw [List.getD_eq_getElem?_getD, List.getElem?_append_right (le_refl _)]
    simp
  have h3 := shiftLoop_stuck_at pre target y rest hy fuel
  simp only [ht, or_false] at h3
  simp only [jst_RemovePointer, h1, Nat.zero_add, h2, ht, if_false, h3]

/-- Witness for C14: target `2` in the middle of `[1, 2, 3, NULL]`, with a bound of 1000
iterations. -/
theorem jst_RemovePointer_diverges_witness :
    jst_RemovePointer 1000 [1, 2, 3, 0] 2 = none :=
  jst_RemovePointer_diverges [1] 2 3 [0] (by decide) (by decide) (by decide) 1000

/-- C13 (defect in the code, the one of C3): `jst_RemoveAndFreePointer` first calls
`jst_RemovePointer`. On the collection `[1, 2, NULL]` with an item handle of value `1`, a
live entry, that call never returns, so no boolean is returned and `free` is never reached. -/
theorem jst_RemoveAndFreePointer_never_returns :
    ∀ fuel : Nat, jst_RemoveAndFreePointer fuel [1, 2, 0] 1 = none := by
  intro fuel
  have h := shiftLoop_stuck 1 2 [0] (by decide) fuel
  simp only [one_ne_zero, or_false] at h
  simp [jst_RemoveAndFreePointer, jst_RemovePointer, findLoop, h]

theorem freeLoop_live (es rest : List Nat) (indx : Nat) (hes : ∀ e ∈ es, e ≠ 0) :
    freeLoop (es ++ 0 :: rest) indx = .ok (es.map Released.item) := by
  induction es generalizing indx with
  | nil => simp [freeLoop]
  | cons e es ih =>
    have h0 : e ≠ 0 := hes e (by simp)
    rw [List.cons_append, freeLoop, if_pos h0, ih (indx + 1) (fun x hx => hes x (by simp [hx]))]
    rfl

/-- C17: on a null-terminated collection with live entries `es`, `jst_freeAll` calls `free`
on each live entry once, in order, then on the array, and leaves the handle absent; on an
absent handle it calls `free` on nothing and leaves the handle absent; so a second call
after a first one releases nothing and changes nothing. -/
theorem jst_freeAll_releases (es rest : List Nat) (hes : ∀ e ∈ es, e ≠ 0) :
    jst_freeAll (some (es ++ 0 :: rest))
        = .ok ⟨none, es.map Released.item ++ [Released.array (es ++ 0 :: rest)]⟩
    ∧ jst_freeAll none = .ok ⟨none, []⟩
    ∧ ∀ r : FreeAllResult, jst_freeAll (some (es ++ 0 :: rest)) = .ok r →
        jst_freeAll r.array = .ok ⟨r.array, []⟩ := by
  have h : jst_freeAll (some (es ++ 0 :: rest))
      = .ok ⟨none, es.map Released.item ++ [Released.array (es ++ 0 :: rest)]⟩ := by
    simp only [jst_freeAll, freeLoop_live es rest 0 hes]
  refine ⟨h, rfl, ?_⟩
  intro r hr
  rw [h] at hr
  cases hr
  rfl

/-- Witness for C17: the collection `[3, 4, NULL, 9]`. -/
theorem jst_freeAll_releases_witness :
    jst_freeAll (some [3, 4, 0, 9])
        = .ok ⟨none, [Released.item 3, Released.item 4, Released.array [3, 4, 0, 9]]⟩
    ∧ jst_freeAll none = .ok ⟨none, []⟩
    ∧ ∀ r : FreeAllResult, jst_freeAll (some [3, 4, 0, 9]) = .ok r →
        jst_freeAll r.array = .ok ⟨r.array, []⟩ :=
  jst_freeAll_releases [3, 4] [9] (by decide)

theorem appendPointer_grow_eq (es : List Nat) (c item : Nat) (junk : Nat → Nat)
    (hes : ∀ e ∈ es, e ≠ 0) (hc : c ≤ es.length + 1) :
    jst_appendPointer (some (es ++ [0])) c item (.ok junk)
      = .ok ⟨some (es ++ item :: 0 :: (List.range' (es.length + 2) 3).map junk),
          some (es ++ item :: 0 :: (List.range' (es.length + 2) 3).map junk),
          es.length + 5⟩ := by
  have hr : (List.range' (es.length + 1) (es.length + 5 - (es.length + 1))).map junk
      = junk (es.length + 1) :: (List.range' (es.length + 2) 3).map junk := by
    have : es.length + 5 - (es.length + 1) = 4 := by omega
    rw [this]
    simp [List.range']
  have ht : List.take (es.length + 5) (es ++ [0]) = es ++ [0] :=
    List.take_of_length_le (by simp)
  simp only [jst_appendPointer, countLoop_live es [] 0 hes, Nat.zero_add,
    DYNAMIC_ARRAY_LENGTH_INCREMENT, List.length_append, List.length_singleton, hc,
    if_true, realloc_ok_eq, ht, hr]
  have e1 : storeAt (es ++ [0] ++ junk (es.length + 1)
        :: List.map junk (List.range' (es.length + 2) 3)) es.length item
      = .ok (es ++ item :: junk (es.length + 1)
        :: List.map junk (List.range' (es.length + 2) 3)) := by
    have := set_append_here es 0 item
      (junk (es.length + 1) :: List.map junk (List.range' (es.length + 2) 3))
    simp only [storeAt, List.append_assoc, List.singleton_append, this]
    simp
  have e2 : storeAt (es ++ item :: junk (es.length + 1)
        :: List.map junk (List.range' (es.length + 2) 3)) (es.length + 1) 0
      = .ok (es ++ item :: 0 :: List.map junk (List.range' (es.length + 2) 3)) := by
    simp only [storeAt, set_append_next]
    simp
  rw [e1]
  simp only [e2]

/-- C18, as amended: when `jst_appendPointer` grows a well-formed collection (live entries
`es`, `k = es.length`, tracked capacity `c` equal to the real size, growth condition
`c ≤ k + 1`), the new tracked capacity and the new size are `k + 5`, which is `c + 4`:
growth happens only when `c = k + 1`. -/
theorem jst_appendPointer_growth_step (es rest : List Nat) (c item : Nat) (junk : Nat → Nat)
    (hes : ∀ e ∈ es, e ≠ 0) (hc : (es ++ 0 :: rest).length = c) (hgrow : c ≤ es.length + 1) :
    ∃ arr : List Nat,
      jst_appendPointer (some (es ++ 0 :: rest)) c item (.ok junk)
        = .ok ⟨some arr, some arr, es.length + 5⟩
      ∧ es.length + 5 = c + 4 ∧ arr.length = c + 4 := by
  subst hc
  have hrest : rest = [] := by
    cases rest with
    | nil => rfl
    | cons r rest => simp at hgrow
  subst hrest
  exact ⟨_, appendPointer_grow_eq es _ item junk hes hgrow, by simp, by simp⟩

/-- Witness for C18 as amended: `[1, 2, NULL]` of capacity 3 grows to capacity 7. -/
theorem jst_appendPointer_growth_step_witness :
    ∃ arr : List Nat,
      jst_appendPointer (some [1, 2, 0]) 3 7 (.ok fun _ => 9) = .ok ⟨some arr, some arr, 7⟩
      ∧ 2 + 5 = 3 + 4 ∧ arr.length = 3 + 4 :=
  jst_appendPointer_growth_step [1, 2] [] 3 7 (fun _ => 9) (by decide) rfl (by decide)

/-- C18 as stated fails: the well-formed collection `[1, 2, NULL]` of capacity 3 grows to a
tracked capacity of 7, not `3 + 5`. -/
theorem jst_appendPointer_growth_step_counterexample :
    jst_appendPointer (some [1, 2, 0]) 3 7 (.ok fun _ => 9)
        = .ok ⟨some [1, 2, 7, 0, 9, 9, 9], some [1, 2, 7, 0, 9, 9, 9], 7⟩
    ∧ (7 : Nat) ≠ 3 + 5 :=
  ⟨rfl, by decide⟩

/-! ## Growable array: incremental build -/

/-- C19 (defect in the code, the one of C7): two appends of the items `7` and `9` at the
indices 0 and 1, starting from an absent array with capacity value `0`, the same capacity
variable being passed to both calls, for every stride an `int` can hold. The first call
leaves the capacity at `0`; the second call then grows the one-element array and zero-fills
it from element `0` on, so element 0 ends up zero, not `7`. -/
theorem appendItems_wipes_first_item (item_size_in_bytes : Nat) (junk : Nat → Nat)
    (hsize : item_size_in_bytes ≤ INT_MAX) :
    appendItems 0 item_size_in_bytes (fun _ => .ok junk) [some 7, some 9] 0 none 0
      = .ok ⟨some [0, 9, 0, 0, 0], 5⟩ := by
  have e0 : jst_appendArrayItem 0 none 0 0 (some 7) item_size_in_bytes (.ok junk)
      = .ok ⟨some [7], 0⟩ := by
    rw [jst_appendArrayItem_in_range 0 none 0 0 (some 7) item_size_in_bytes (.ok junk)
      (fun _ => by decide) (by rw [Nat.zero_mul]; exact Nat.zero_le _)]
    rfl
  have e1 : jst_appendArrayItem 0 (some [7]) (0 + 1) 0 (some 9) item_size_in_bytes (.ok junk)
      = .ok ⟨some [0, 9, 0, 0, 0], 5⟩ := by
    rw [jst_appendArrayItem_in_range 0 (some [7]) (0 + 1) 0 (some 9) item_size_in_bytes
      (.ok junk) (fun h => by cases h) (by rw [Nat.zero_add, Nat.one_mul]; exact hsize)]
    rfl
  simp only [appendItems, e0, e1]

/-- The failing input of C19 with elements of 4 bytes and a reallocation whose new cells
hold `3`. -/
theorem appendItems_wipes_first_item_witness :
    4 ≤ INT_MAX
    ∧ appendItems 0 4 (fun _ => .ok fun _ => 3) [some 7, some 9] 0 none 0
        = .ok ⟨some [0, 9, 0, 0, 0], 5⟩ :=
  ⟨by decide, appendItems_wipes_first_item 4 (fun _ => 3) (by decide)⟩

/-! ## String packing: layout of the block -/

theorem drop_append_of_length {α : Type} (a b : List α) (n : Nat) (h : a.length = n) :
    (a ++ b).drop n = b := by
  subst h
  exact List.drop_left _ _

theorem dataCells_length (strs : List CStr) :
    (dataCells strs).length = (strs.map (fun s => s.length + 1)).sum := by
  induction strs with
  | nil => rfl
  | cons s rest ih =>
    rw [dataCells, List.length_append, strCells_length, ih, List.map_cons, List.sum_cons]

/-- C12: for a pointer size `P` and strings `strs` (`n` of them), `jst_packStringArray`
requests `(n + 1) * P` bytes plus, for every string, its length plus one; with a successful
allocator the block returned has exactly that size, every write fell inside it, the bytes
after the `n + 1` pointer slots are the strings with their terminators, contiguous and in
order, up to the end of the block; slot `n` holds the null pointer; and the slot of each
string holds the offset `(n + 1) * P` plus the lengths plus one of the strings before it,
where the bytes of that string and its terminator are stored. -/
theorem jst_packStringArray_block_layout (P : Nat) (strs : List CStr) (junk : Nat → Cell) :
    (sizeLoop P strs P 0).1 = (strs.length + 1) * P + (strs.map (fun s => s.length + 1)).sum
    ∧ ∃ block : List Cell,
      jst_packStringArray P strs (.ok junk) = .ok (some block)
      ∧ block.length = (strs.length + 1) * P + (strs.map (fun s => s.length + 1)).sum
      ∧ block.drop ((strs.length + 1) * P) = dataCells strs
      ∧ (block.drop (strs.length * P)).take P = ptrCells P none
      ∧ ∀ (done : List CStr) (s : CStr) (todo : List CStr), strs = done ++ s :: todo →
          (block.drop (done.length * P)).take P
            = ptrCells P (some ((strs.length + 1) * P
                + (done.map (fun s => s.length + 1)).sum))
          ∧ (block.drop ((strs.length + 1) * P
                + (done.map (fun s => s.length + 1)).sum)).take (s.length + 1)
            = strCells s := by
  have htl : (tableCells P ((packOffsets ((strs.length + 1) * P) strs).map some ++ [none])).length
      = (strs.length + 1) * P := by
    rw [tableCells_length, List.length_append, List.length_map, packOffsets_length,
      List.length_singleton]
  refine ⟨?_, _, jst_packStringArray_layout P strs junk, ?_, ?_, ?_, ?_⟩
  · rw [sizeLoop_eq, dataCells_length, Nat.succ_mul]
    simp only [Prod.fst]
    omega
  · rw [List.length_append, htl, dataCells_length]
  · exact drop_append_of_length _ _ _ htl
  · rw [tableCells_append, List.append_assoc,
      drop_append_of_length _ _ _
        (by rw [tableCells_length, List.length_map, packOffsets_length])]
    simp only [tableCells, List.append_nil, List.append_assoc]
    exact @List.take_left' _ (ptrCells P none) (dataCells strs) P (ptrCells_length P none)
  · intro done s todo hsplit
    subst hsplit
    constructor
    · rw [packOffsets_append, packOffsets]
      simp only [List.map_append, List.map_cons, tableCells_append, tableCells,
        List.append_assoc]
      rw [drop_append_of_length _ _ _
        (by rw [tableCells_length, List.length_map, packOffsets_length]), dataCells_length]
      exact @List.take_left' _ (ptrCells P _) _ P (ptrCells_length P _)
    · rw [dataCells_append, ← List.append_assoc, ← dataCells_length,
        drop_append_of_length _ _ _ (by rw [List.length_append, htl]), dataCells]
      exact @List.take_left' _ (strCells s) (dataCells todo) (s.length + 1) (strCells_length s)

/-! ## Allocation failure of the single-allocation operations -/

theorem appendArrayItem_absent_iff {α : Type} (zero : α) (array : Option (List α))
    (indx arlen : Nat) (item : Option α) (item_size_in_bytes : Nat) (a : Alloc α) :
    (∃ r, jst_appendArrayItem zero array indx arlen item item_size_in_bytes a = .ok r
        ∧ r.array = none)
      ↔ (((array = none ∧ indx + 1 ≤ INT_MAX) ∨ (array ≠ none ∧ arlen ≤ indx))
          ∧ ∃ e, a = .fail e) := by
  cases array with
  | none =>
    by_cases hs : indx + 1 > INT_MAX
    · have hs2 : ¬ (indx + 1 ≤ INT_MAX) := Nat.not_le.mpr hs
      simp [jst_appendArrayItem, hs, hs2]
    · have hs2 : indx + 1 ≤ INT_MAX := Nat.not_lt.mp hs
      cases a with
      | fail e => simp [jst_appendArrayItem, jst_calloc, hs, hs2]
      | ok junk =>
        have hlt : indx < (if arlen > indx + 1 then arlen else indx + 1) := by
          split <;> omega
        by_cases ho : indx * item_size_in_bytes > INT_MAX
        · simp [jst_appendArrayItem, jst_calloc, hs, ho]
        · simp [jst_appendArrayItem, jst_calloc, storeAt, hlt, hs, ho]
  | some arr =>
    by_cases h : arlen ≤ indx
    · cases a with
      | fail e => simp [jst_appendArrayItem, jst_realloc, h]
      | ok junk =>
        simp only [jst_appendArrayItem, ge_iff_le, h, if_true, realloc_ok_eq]
        constructor
        · rintro ⟨r, hr, hn⟩
          exfalso
          split at hr
          · cases hr
          · split at hr
            · cases hr
            · split at hr
              · cases hr
              · cases hr
                cases hn
        · rintro ⟨-, e, he⟩
          cases he
    · simp only [jst_appendArrayItem, ge_iff_le, h, if_false]
      constructor
      · rintro ⟨r, hr, hn⟩
        exfalso
        split at hr
        · cases hr
        · split at hr
          · cases hr
          · cases hr
            cases hn
      · rintro ⟨h1, -⟩
        rcases h1 with ⟨h1, -⟩ | ⟨-, h1⟩
        · cases h1
        · exact h1.elim

theorem appendArrayItemInRange_absent_iff {α : Type} (zero : α) (array : Option (List α))
    (indx arlen : Nat) (item : Option α) (a : Alloc α) :
    (∃ r, appendArrayItemInRange zero array indx arlen item a = .ok r ∧ r.array = none)
      ↔ ((array = none ∨ arlen ≤ indx) ∧ ∃ e, a = .fail e) := by
  cases array with
  | none =>
    cases a with
    | fail e => simp [appendArrayItemInRange, jst_calloc]
    | ok junk =>
      have hlt : indx < (if arlen > indx + 1 then arlen else indx + 1) := by split <;> omega
      simp [appendArrayItemInRange, jst_calloc, storeAt, hlt]
  | some arr =>
    by_cases h : arlen ≤ indx
    · cases a with
      | fail e => simp [appendArrayItemInRange, jst_realloc, h]
      | ok junk =>
        simp only [appendArrayItemInRange, ge_iff_le, h, if_true, realloc_ok_eq]
        constructor
        · rintro ⟨r, hr, hn⟩
          exfalso
          split at hr
          · cases hr
          · split at hr
            · cases hr
            · cases hr
              cases hn
        · rintro ⟨-, e, he⟩
          cases he
    · simp only [appendArrayItemInRange, ge_iff_le, h, if_false]
      constructor
      · rintro ⟨r, hr, hn⟩
        exfalso
        split at hr
        · cases hr
        · cases hr
          cases hn
      · rintro ⟨h1, -⟩
        rcases h1 with h1 | h1
        · cases h1
        · exact h1.elim

theorem appendPointer_absent_iff (array : Option (List Nat)) (arrSize item : Nat)
    (a : Alloc Nat) :
    (∃ r, jst_appendPointer array arrSize item a = .ok r ∧ r.ret = none)
      ↔ ((array = none
          ∨ ∃ arr count, array = some arr ∧ countLoop arr 0 = .ok count ∧ arrSize ≤ count + 1)
        ∧ ∃ e, a = .fail e) := by
  cases array with
  | none =>
    cases a with
    | fail e => simp [jst_appendPointer, jst_calloc]
    | ok junk =>
      have hlt : 0 < (if arrSize = 0 then DYNAMIC_ARRAY_LENGTH_INCREMENT else arrSize) := by
        split
        · decide
        · omega
      simp [jst_appendPointer, jst_calloc, storeAt, hlt]
  | some arr =>
    cases hcount : countLoop arr 0 with
    | error f => simp [jst_appendPointer, hcount]
    | ok count =>
      by_cases h : arrSize ≤ count + 1
      · cases a with
        | fail e => simp [jst_appendPointer, hcount, jst_realloc, h]
        | ok junk =>
          simp only [jst_appendPointer, hcount, h, if_true, realloc_ok_eq]
          constructor
          · rintro ⟨r, hr, hn⟩
            exfalso
            split at hr
            · cases hr
            · split at hr
              · cases hr
              · cases hr
                cases hn
          · rintro ⟨-, e, he⟩
            cases he
      · simp only [jst_appendPointer, hcount, h, if_false]
        constructor
        · rintro ⟨r, hr, hn⟩
          exfalso
          split at hr
          · cases hr
          · split at hr
            · cases hr
            · cases hr
              cases hn
        · rintro ⟨h1, -⟩
          rcases h1 with h1 | ⟨arr2, count2, h1, h2, h3⟩
          · cases h1
          · cases h1
            rw [hcount] at h2
            cases h2
            exact absurd h3 h

theorem packStringArray_absent_iff (P : Nat) (strs : List CStr) (a : Alloc Cell) :
    jst_packStringArray P strs a = .ok none ↔ ∃ e, a = .fail e := by
  cases a with
  | fail e => simp [jst_packStringArray, jst_malloc]
  | ok junk =>
    rw [jst_packStringArray_layout]
    simp

/-- C16: each of `jst_appendArrayItem`, `jst_appendPointer` and `jst_packStringArray`
returns `NULL` exactly when the call asks the allocator and the allocator refuses.
`jst_appendArrayItem` asks when the array is absent, once `indx + 1` has been computed, or
when the array exists and the index is not below the tracked capacity, whatever the stride;
its in-range form `appendArrayItemInRange`, which `jst_append` calls, asks when the array is
absent or the index is not below the tracked capacity; `jst_appendPointer` asks when the
collection is absent or its count `k` satisfies `capacity ≤ k + 1`; `jst_packStringArray`
always asks. A call that does not ask the allocator therefore never returns `NULL`. -/
theorem absent_iff_allocation_fails :
    (∀ (α : Type) (z : α) (array : Option (List α)) (indx arlen : Nat) (item : Option α)
        (item_size_in_bytes : Nat) (a : Alloc α),
      (∃ r, jst_appendArrayItem z array indx arlen item item_size_in_bytes a = .ok r
          ∧ r.array = none)
        ↔ (((array = none ∧ indx + 1 ≤ INT_MAX) ∨ (array ≠ none ∧ arlen ≤ indx))
            ∧ ∃ e, a = .fail e))
    ∧ (∀ (α : Type) (z : α) (array : Option (List α)) (indx arlen : Nat) (item : Option α)
        (a : Alloc α),
      (∃ r, appendArrayItemInRange z array indx arlen item a = .ok r ∧ r.array = none)
        ↔ ((array = none ∨ arlen ≤ indx) ∧ ∃ e, a = .fail e))
    ∧ (∀ (array : Option (List Nat)) (arrSize item : Nat) (a : Alloc Nat),
      (∃ r, jst_appendPointer array arrSize item a = .ok r ∧ r.ret = none)
        ↔ ((array = none
            ∨ ∃ arr count, array = some arr ∧ countLoop arr 0 = .ok count
                ∧ arrSize ≤ count + 1)
          ∧ ∃ e, a = .fail e))
    ∧ (∀ (P : Nat) (strs : List CStr) (a : Alloc Cell),
      jst_packStringArray P strs a = .ok none ↔ ∃ e, a = .fail e) :=
  ⟨fun _ z array indx arlen item item_size_in_bytes a =>
      appendArrayItem_absent_iff z array indx arlen item item_size_in_bytes a,
    fun _ z array indx arlen item a =>
      appendArrayItemInRange_absent_iff z array indx arlen item a,
    appendPointer_absent_iff, packStringArray_absent_iff⟩

/-! ## String concatenation: argument table, capacity and allocation failure -/

theorem appendArrayItem_grow_fail {α : Type} (zero : α) (arr : List α) (indx : Nat)
    (item : Option α) (e : Nat) (h : arr.length ≤ indx) :
    appendArrayItemInRange zero (some arr) indx arr.length item (.fail e)
      = .ok ⟨none, arr.length + 5⟩ := by
  simp [appendArrayItemInRange, jst_realloc, h, DYNAMIC_ARRAY_LENGTH_INCREMENT]

theorem nonEmptyArgs_append (xs ys : List CStr) :
    nonEmptyArgs (xs ++ ys) = nonEmptyArgs xs ++ nonEmptyArgs ys := by
  induction xs with
  | nil => rfl
  | cons s rest ih =>
    by_cases hs : s = []
    · subst hs
      simp [nonEmptyArgs, ih]
    · simp [nonEmptyArgs, hs, ih]

theorem collectArgs_append (tableAlloc : Nat → Alloc StrPtr) (pre post : List CStr)
    (st : ArgState) :
    collectArgs tableAlloc (pre ++ post) st
      = match collectArgs tableAlloc pre st with
        | .error f => .error f
        | .ok st2 => collectArgs tableAlloc post st2 := by
  induction pre generalizing st with
  | nil => simp [collectArgs]
  | cons s rest ih =>
    rw [List.cons_append, collectArgs, collectArgs]
    cases hst : st.stringsToAppend with
    | none =>
      simp only []
      cases post with
      | nil => simp [collectArgs]
      | cons p post => simp [collectArgs, hst]
    | some table =>
      simp only []
      by_cases hs : s = []
      · simp only [hs, ne_eq, not_true_eq_false, if_false, ih]
      · simp only [hs, ne_eq, not_false_eq_true, if_true]
        cases hcall : appendArrayItemInRange none (some table) st.i st.numArgs (some (some s))
            (tableAlloc (st.i + 1)) with
        | error f => simp only []
        | ok r =>
          simp only []
          cases hr : r.array with
          | none =>
            simp only []
            cases post with
            | nil => simp [collectArgs]
            | cons p post => simp [collectArgs]
          | some table2 => simp only [ih]

/-- The argument loop of `jst_append` from a state whose tracked table size is the real
one and whose index is not beyond it: either an allocation fails at some index `g` and the
loop ends with a null table and the error code of that failure, or the loop ends with a
table whose tracked size is the real one. In the second case the table grew by steps of
five, exactly at the indices `g` with `table.length ≤ g` and `g - table.length` a multiple
of five, and the allocator granted each of these requests. -/
theorem collectArgs_run (tableAlloc : Nat → Alloc StrPtr) (args : List CStr)
    (table : List StrPtr) (i total : Nat) (hi : i ≤ table.length) :
    (∃ g e n tot, i ≤ g ∧ g < i + (nonEmptyArgs args).length ∧ table.length ≤ g
        ∧ (g - table.length) % 5 = 0 ∧ tableAlloc (g + 1) = .fail e
        ∧ collectArgs tableAlloc args ⟨some table, i, table.length, total, 0⟩
            = .ok ⟨none, g + 1, n, tot, e⟩)
    ∨ (∃ table2 : List StrPtr,
        collectArgs tableAlloc args ⟨some table, i, table.length, total, 0⟩
          = .ok ⟨some table2, i + (nonEmptyArgs args).length, table2.length,
              total + args.flatten.length, 0⟩
        ∧ i + (nonEmptyArgs args).length ≤ table2.length
        ∧ table2.take (i + (nonEmptyArgs args).length)
            = table.take i ++ (nonEmptyArgs args).map some
        ∧ table.length ≤ table2.length
        ∧ (table2.length - table.length) % 5 = 0
        ∧ (∀ g, i ≤ g → g < i + (nonEmptyArgs args).length → table.length ≤ g →
            (g - table.length) % 5 = 0 → ∃ junk, tableAlloc (g + 1) = .ok junk)
        ∧ (∀ g, i + (nonEmptyArgs args).length ≤ g →
            ((table2.length ≤ g ∧ (g - table2.length) % 5 = 0)
              ↔ (table.length ≤ g ∧ (g - table.length) % 5 = 0)))) := by
  induction args generalizing table i total with
  | nil =>
    right
    exact ⟨table, by simp [collectArgs, nonEmptyArgs], by simpa [nonEmptyArgs] using hi,
      by simp [nonEmptyArgs], le_refl _, by simp, by
        intro g h1 h2
        simp [nonEmptyArgs] at h2
        omega, fun g _ => Iff.rfl⟩
  | cons s rest ih =>
    by_cases hs : s = []
    · subst hs
      have hf : nonEmptyArgs ([] :: rest) = nonEmptyArgs rest := by simp [nonEmptyArgs]
      have hc : collectArgs tableAlloc ([] :: rest) ⟨some table, i, table.length, total, 0⟩
          = collectArgs tableAlloc rest ⟨some table, i, table.length, total, 0⟩ := by
        simp [collectArgs]
      rw [hf, hc]
      have := ih table i total hi
      simpa using this
    · have hf : nonEmptyArgs (s :: rest) = s :: nonEmptyArgs rest := by
        simp [nonEmptyArgs, hs]
      rw [hf, List.length_cons]
      rcases Nat.lt_or_ge i table.length with hlt | hge
      · -- the item is stored in place
        have g1 := appendArrayItem_inplace_eq none table i (some (some s))
          (tableAlloc (i + 1)) hlt
        have hl : (table.set i (some s)).length = table.length := by simp
        have hc : collectArgs tableAlloc (s :: rest) ⟨some table, i, table.length, total, 0⟩
            = collectArgs tableAlloc rest
                ⟨some (table.set i (some s)), i + 1, (table.set i (some s)).length,
                  total + s.length, 0⟩ := by
          simp [collectArgs, hs, g1]
        rw [hc]
        rcases ih (table.set i (some s)) (i + 1) (total + s.length) (by rw [hl]; omega) with
          ⟨g, e, n, tot, h1, h2, h3, h4, h5, h6⟩ | ⟨table2, h1, h2, h3, h4, h5, h6, h7⟩
        · left
          rw [hl] at h3 h4
          exact ⟨g, e, n, tot, by omega, by omega, h3, h4, h5, h6⟩
        · right
          rw [hl] at h4 h5 h6 h7
          refine ⟨table2, ?_, by omega, ?_, h4, h5, ?_, ?_⟩
          · rw [h1, List.flatten_cons, List.length_append]
            simp only [Nat.add_assoc, Nat.add_comm 1]
          · rw [show i + ((nonEmptyArgs rest).length + 1)
              = i + 1 + (nonEmptyArgs rest).length by omega, h3,
              take_succ_set table i (some s) hlt]
            simp
          · intro g k1 k2 k3 k4
            exact h6 g (by omega) (by omega) k3 k4
          · intro g k1
            exact h7 g (by omega)
      · -- the table has to grow
        have he : i = table.length := le_antisymm hi hge
        subst he
        cases ha : tableAlloc (table.length + 1) with
        | fail e =>
          left
          have g1 := appendArrayItem_grow_fail none table table.length (some (some s)) e
            (le_refl _)
          refine ⟨table.length, e, table.length + 5, total, le_refl _, by omega, le_refl _,
            by simp, ha, ?_⟩
          simp [collectArgs, hs, ha, g1, Alloc.errno]
        | ok junk =>
          have g1 := appendArrayItem_grow_eq none table table.length (some (some s)) junk
            (le_refl _) (by omega)
          have hl : ((table ++ List.replicate 5 none).set table.length (some s)).length
              = table.length + 5 := by simp
          have hc : collectArgs tableAlloc (s :: rest)
                ⟨some table, table.length, table.length, total, 0⟩
              = collectArgs tableAlloc rest
                  ⟨some ((table ++ List.replicate 5 none).set table.length (some s)),
                    table.length + 1,
                    ((table ++ List.replicate 5 none).set table.length (some s)).length,
                    total + s.length, 0⟩ := by
            simp [collectArgs, hs, ha, g1]
          rw [hc]
          rcases ih ((table ++ List.replicate 5 none).set table.length (some s))
              (table.length + 1) (total + s.length) (by rw [hl]; omega) with
            ⟨g, e, n, tot, h1, h2, h3, h4, h5, h6⟩ | ⟨table2, h1, h2, h3, h4, h5, h6, h7⟩
          · left
            rw [hl] at h3 h4
            exact ⟨g, e, n, tot, by omega, by omega, by omega, by omega, h5, h6⟩
          · right
            rw [hl] at h4 h5 h6 h7
            refine ⟨table2, ?_, by omega, ?_, by omega, by omega, ?_, ?_⟩
            · rw [h1, List.flatten_cons, List.length_append]
              simp only [Nat.add_assoc, Nat.add_comm 1]
            · rw [show table.length + ((nonEmptyArgs rest).length + 1)
                = table.length + 1 + (nonEmptyArgs rest).length by omega, h3,
                take_succ_set _ table.length (some s) (by simp)]
              simp
            · intro g k1 k2 k3 k4
              rcases Nat.eq_or_lt_of_le k1 with k5 | k5
              · rw [← k5]
                exact ⟨junk, ha⟩
              · exact h6 g (by omega) (by omega) (by omega) (by omega)
            · intro g k1
              rw [h7 g (by omega)]
              constructor
              · rintro ⟨a1, a2⟩
                exact ⟨by omega, by omega⟩
              · rintro ⟨a1, a2⟩
                exact ⟨by omega, by omega⟩

/-- C20: with a successful allocator, the argument table of `jst_append` starts with 10
entries. After any prefix `pre` of the arguments the loop has stored the non-empty strings
of `pre`, its index `i` is their number and is at most the tracked size `numArgs`, which is
the real size of the table and of the form `10 + 5 * j`; so every call of
`jst_appendArrayItem` in the loop (`appendArrayItemInRange`, the index being a count of
variadic arguments) has an index that is at most `numArgs` before the call and below it
afterwards, and no write falls outside the table. The final call stores the null
entry at index `m`, the number of non-empty arguments, and the table then holds these
arguments in order followed by the null entry. -/
theorem jst_append_table_in_bounds (tableJunk : Nat → Nat → StrPtr) (args : List CStr)
    (total : Nat) :
    jst_malloc 10 (.ok (tableJunk 0)) = some ((List.range 10).map (tableJunk 0))
    ∧ (∀ pre post : List CStr, args = pre ++ post →
        ∃ table : List StrPtr,
          collectArgs (fun k => .ok (tableJunk k)) pre
              ⟨some ((List.range 10).map (tableJunk 0)), 0, 10, total, 0⟩
            = .ok ⟨some table, (nonEmptyArgs pre).length, table.length,
                total + pre.flatten.length, 0⟩
          ∧ collectArgs (fun k => .ok (tableJunk k)) args
              ⟨some ((List.range 10).map (tableJunk 0)), 0, 10, total, 0⟩
            = collectArgs (fun k => .ok (tableJunk k)) post
                ⟨some table, (nonEmptyArgs pre).length, table.length,
                  total + pre.flatten.length, 0⟩
          ∧ (nonEmptyArgs pre).length ≤ table.length
          ∧ (∃ j, table.length = 10 + 5 * j)
          ∧ table.take (nonEmptyArgs pre).length = (nonEmptyArgs pre).map some)
    ∧ ∃ (table2 table3 more : List StrPtr),
        collectArgs (fun k => .ok (tableJunk k)) args
            ⟨some ((List.range 10).map (tableJunk 0)), 0, 10, total, 0⟩
          = .ok ⟨some table2, (nonEmptyArgs args).length, table2.length,
              total + args.flatten.length, 0⟩
        ∧ appendArrayItemInRange none (some table2) (nonEmptyArgs args).length table2.length
            (some none) (.ok (tableJunk ((nonEmptyArgs args).length + 1)))
          = .ok ⟨some table3, table3.length⟩
        ∧ (nonEmptyArgs args).length < table3.length
        ∧ (∃ j, table3.length = 10 + 5 * j)
        ∧ table3 = (nonEmptyArgs args).map some ++ none :: more := by
  have run : ∀ xs : List CStr, ∃ table : List StrPtr,
      collectArgs (fun k => .ok (tableJunk k)) xs
          ⟨some ((List.range 10).map (tableJunk 0)), 0, 10, total, 0⟩
        = .ok ⟨some table, (nonEmptyArgs xs).length, table.length,
            total + xs.flatten.length, 0⟩
      ∧ (nonEmptyArgs xs).length ≤ table.length
      ∧ (∃ j, table.length = 10 + 5 * j)
      ∧ table.take (nonEmptyArgs xs).length = (nonEmptyArgs xs).map some := by
    intro xs
    have h := collectArgs_run (fun k => .ok (tableJunk k)) xs
      ((List.range 10).map (tableJunk 0)) 0 total (by simp)
    simp only [List.length_map, List.length_range, Nat.zero_add, List.take_zero,
      List.nil_append] at h
    rcases h with ⟨g, e, n, tot, -, -, -, -, h5, -⟩ | ⟨table, h1, h2, h3, h4, h5, -, -⟩
    · cases h5
    · exact ⟨table, h1, h2, ⟨(table.length - 10) / 5, by omega⟩, h3⟩
  refine ⟨rfl, ?_, ?_⟩
  · intro pre post hsplit
    obtain ⟨table, h1, h2, h3, h4⟩ := run pre
    refine ⟨table, h1, ?_, h2, h3, h4⟩
    rw [hsplit, collectArgs_append, h1]
  · obtain ⟨table2, h1, h2, ⟨j, h3⟩, h4⟩ := run args
    obtain ⟨table3, g1, g2, g3, g4⟩ :=
      appendArrayItem_tracked none table2 (nonEmptyArgs args).length (some none)
        (tableJunk ((nonEmptyArgs args).length + 1)) h2
    refine ⟨table2, table3, table3.drop ((nonEmptyArgs args).length + 1), h1, g1, g2, ?_, ?_⟩
    · rcases g4 with g | g
      · exact ⟨j, by omega⟩
      · exact ⟨j + 1, by omega⟩
    · rw [h4] at g3
      have := List.take_append_drop ((nonEmptyArgs args).length + 1) table3
      rw [g3] at this
      simpa using this.symm

theorem append_copy_eq (strs : List CStr) (more : List StrPtr) (pre x : List Nat)
    (h : strs.flatten.length + 1 ≤ x.length) :
    copyStrings (strs.map some ++ none :: more) 0 (pre ++ x) pre.length
        = .ok (pre ++ strs.flatten ++ x.drop strs.flatten.length,
            pre.length + strs.flatten.length)
    ∧ storeAt (pre ++ strs.flatten ++ x.drop strs.flatten.length)
          (pre.length + strs.flatten.length) 0
        = .ok (pre ++ strs.flatten ++ 0 :: x.drop (strs.flatten.length + 1)) := by
  refine ⟨copyStrings_eq strs more 0 pre x (by omega), ?_⟩
  have hd : x.drop strs.flatten.length
      = x[strs.flatten.length] :: x.drop (strs.flatten.length + 1) :=
    List.drop_eq_getElem_cons (by omega)
  rw [hd]
  have := set_append_here (pre ++ strs.flatten) (x[strs.flatten.length]) 0
    (x.drop (strs.flatten.length + 1))
  simp only [List.length_append] at this
  have hlt : pre.length + strs.flatten.length
      < (pre ++ strs.flatten
          ++ x[strs.flatten.length] :: List.drop (strs.flatten.length + 1) x).length := by
    simp only [List.length_append, List.length_cons, List.length_drop]
    omega
  simp only [storeAt, hlt, if_true, this]

/-- C11, as amended: with a successful allocator and a target that is absent (then `t` is
empty) or starts with the string `t` and its terminator in a block at least as long as the
tracked capacity `c`, let `need = length t + (sum of the lengths of the arguments) + 1`.
The call returns a buffer. Present target, `need ≤ c`: the capacity stays `c`, the block
keeps its size and its bytes from offset `need` on. Present target, `c < need`: the block
returned has size `need` and the capacity becomes `need`. Absent target with a capacity
value `b`: size and capacity are `max need b`; absent target without a capacity variable:
the size is `need`. In every case the final capacity is at least `need` and at most the
size of the block returned, so no byte is written at or beyond it. -/
theorem jst_append_capacity (target : Option (List Nat)) (bufsize : Option Nat)
    (args : List CStr) (t : CStr) (tableJunk : Nat → Nat → StrPtr) (targetJunk : Nat → Nat)
    (htarget : (target = none ∧ t = [])
      ∨ ∃ rest c, target = some (t ++ 0 :: rest) ∧ bufsize = some c
          ∧ c ≤ (t ++ 0 :: rest).length)
    (ht : ∀ ch ∈ t, ch ≠ 0) :
    ∃ (buf : List Nat) (bs : Option Nat),
      jst_append target bufsize args (fun k => .ok (tableJunk k)) (.ok targetJunk)
        = .ok ⟨some buf, bs⟩
      ∧ (∀ tb c, target = some tb → bufsize = some c →
          (t.length + args.flatten.length + 1 ≤ c →
            bs = some c ∧ buf.length = tb.length
              ∧ buf.drop (t.length + args.flatten.length + 1)
                  = tb.drop (t.length + args.flatten.length + 1))
          ∧ (c < t.length + args.flatten.length + 1 →
            bs = some (t.length + args.flatten.length + 1)
              ∧ buf.length = t.length + args.flatten.length + 1))
      ∧ (target = none → ∀ b, bufsize = some b →
          bs = some (max (t.length + args.flatten.length + 1) b)
            ∧ buf.length = max (t.length + args.flatten.length + 1) b)
      ∧ (target = none → bufsize = none →
          bs = none ∧ buf.length = t.length + args.flatten.length + 1)
      ∧ (∀ cap, bs = some cap →
          t.length + args.flatten.length + 1 ≤ cap ∧ cap ≤ buf.length) := by
  rcases htarget with ⟨rfl, rfl⟩ | ⟨rest, c, rfl, rfl, hc⟩
  · obtain ⟨table2, more, table3, h1, h2, h3⟩ := append_table_ok tableJunk args (0 + 1)
    subst h3
    cases bufsize with
    | none =>
      obtain ⟨k1, k2⟩ := append_copy_eq (nonEmptyArgs args) more []
        ((List.range (0 + 1 + args.flatten.length)).map targetJunk)
        (by rw [flatten_nonEmptyArgs]; simp; omega)
      rw [flatten_nonEmptyArgs] at k1 k2
      simp only [List.nil_append, List.length_nil, Nat.zero_add] at k1 k2
      refine ⟨args.flatten ++ 0 :: List.drop (args.flatten.length + 1)
          (List.map targetJunk (List.range (1 + args.flatten.length))), none,
        ?_, ?_, ?_, ?_, ?_⟩
      · simp only [jst_append, malloc_ok_eq, h1, h2, Alloc.errno, k1, k2, appendEnd,
          List.nil_append, Nat.zero_add]
        simp
      · intro tb c h
        cases h
      · intro _ b h
        cases h
      · intro _ _
        refine ⟨rfl, ?_⟩
        simp only [List.length_append, List.length_cons, List.length_drop, List.length_map,
          List.length_range, List.length_nil]
        omega
      · intro cap h
        cases h
    | some b =>
      obtain ⟨k1, k2⟩ := append_copy_eq (nonEmptyArgs args) more []
        ((List.range (if b > 0 + 1 + args.flatten.length then b
          else 0 + 1 + args.flatten.length)).map targetJunk)
        (by rw [flatten_nonEmptyArgs]; simp; split <;> omega)
      rw [flatten_nonEmptyArgs] at k1 k2
      simp only [List.nil_append, List.length_nil, Nat.zero_add] at k1 k2
      have hlen : (args.flatten ++ 0 :: List.drop (args.flatten.length + 1)
          (List.map targetJunk (List.range
            (if b > 1 + args.flatten.length then b else 1 + args.flatten.length)))).length
          = max (0 + args.flatten.length + 1) b := by
        simp only [List.length_append, List.length_cons, List.length_drop, List.length_map,
          List.length_range]
        split <;> omega
      refine ⟨args.flatten ++ 0 :: List.drop (args.flatten.length + 1)
          (List.map targetJunk (List.range
            (if b > 1 + args.flatten.length then b else 1 + args.flatten.length))),
        some (max (0 + args.flatten.length + 1) b), ?_, ?_, ?_, ?_, ?_⟩
      · simp only [jst_append, malloc_ok_eq, h1, h2, Alloc.errno, k1, k2, appendEnd,
          List.nil_append, Nat.zero_add]
        have : (if b > 1 + args.flatten.length then b else 1 + args.flatten.length)
            = max (args.flatten.length + 1) b := by split <;> omega
        rw [this]
        simp
      · intro tb c h
        cases h
      · intro _ b2 h
        cases h
        exact ⟨rfl, hlen⟩
      · intro _ h
        cases h
      · intro cap h
        cases h
        rw [List.length_nil, hlen]
        omega
  · obtain ⟨table2, more, table3, h1, h2, h3⟩ := append_table_ok tableJunk args (t.length + 1)
    subst h3
    have hs := strlen_cstr t rest ht
    by_cases hb : c < t.length + 1 + args.flatten.length
    · -- the target is reallocated
      have hr := realloc_ok_eq (t ++ 0 :: rest) (t.length + 1 + args.flatten.length) targetJunk
      obtain ⟨x, hx, hxl⟩ : ∃ x : List Nat,
          List.take (t.length + 1 + args.flatten.length) (t ++ 0 :: rest)
            ++ List.map targetJunk (List.range' (t ++ 0 :: rest).length
                (t.length + 1 + args.flatten.length - (t ++ 0 :: rest).length))
            = t ++ x ∧ x.length = args.flatten.length + 1 := by
        refine ⟨List.take (1 + args.flatten.length) (0 :: rest)
            ++ List.map targetJunk (List.range' (t ++ 0 :: rest).length
                (t.length + 1 + args.flatten.length - (t ++ 0 :: rest).length)), ?_, ?_⟩
        · rw [List.take_append_eq_append_take, List.take_of_length_le (by omega)]
          rw [show t.length + 1 + args.flatten.length - t.length = 1 + args.flatten.length by
            omega]
          simp
        · simp only [List.length_append, List.length_take, List.length_map, List.length_range',
            List.length_cons]
          omega
      rw [hx] at hr
      obtain ⟨k1, k2⟩ := append_copy_eq (nonEmptyArgs args) more t x
        (by rw [flatten_nonEmptyArgs]; omega)
      rw [flatten_nonEmptyArgs] at k1 k2
      have hlen : (t ++ args.flatten ++ 0 :: List.drop (args.flatten.length + 1) x).length
          = t.length + args.flatten.length + 1 := by
        simp only [List.length_append, List.length_cons, List.length_drop]
        omega
      refine ⟨t ++ args.flatten ++ 0 :: List.drop (args.flatten.length + 1) x,
        some (t.length + 1 + args.flatten.length), ?_, ?_, ?_, ?_, ?_⟩
      · simp only [jst_append, malloc_ok_eq, hs, h1, h2, hb, if_true, hr, k1, k2, appendEnd]
        simp
      · intro tb c2 h1 h2
        cases h1
        cases h2
        refine ⟨fun h => absurd h (by omega), fun _ => ⟨?_, hlen⟩⟩
        exact congrArg some (by omega)
      · intro h
        cases h
      · intro h
        cases h
      · intro cap h
        cases h
        rw [hlen]
        omega
    · -- the target is written in place
      obtain ⟨k1, k2⟩ := append_copy_eq (nonEmptyArgs args) more t (0 :: rest)
        (by
          rw [List.length_append, List.length_cons] at hc
          rw [flatten_nonEmptyArgs, List.length_cons]
          omega)
      rw [flatten_nonEmptyArgs] at k1 k2
      rw [List.length_append, List.length_cons] at hc
      have hlen : (t ++ args.flatten ++ 0 :: List.drop (args.flatten.length + 1) (0 :: rest)).length
          = (t ++ 0 :: rest).length := by
        simp only [List.length_append, List.length_cons, List.length_drop]
        omega
      refine ⟨t ++ args.flatten ++ 0 :: List.drop (args.flatten.length + 1) (0 :: rest),
        some c, ?_, ?_, ?_, ?_, ?_⟩
      · simp only [jst_append, malloc_ok_eq, hs, h1, h2, hb, if_false, k1, k2, appendEnd]
        simp
      · intro tb c2 h1 h2
        cases h1
        cases h2
        refine ⟨fun _ => ⟨rfl, hlen, ?_⟩, fun h => absurd h (by omega)⟩
        have e1 : (t ++ args.flatten
              ++ 0 :: List.drop (args.flatten.length + 1) (0 :: rest)).drop
              (t.length + args.flatten.length + 1)
            = List.drop (args.flatten.length + 1) (0 :: rest) := by
          have := drop_append_of_length (t ++ args.flatten ++ [0])
            (List.drop (args.flatten.length + 1) (0 :: rest))
            (t.length + args.flatten.length + 1)
            (by simp only [List.length_append, List.length_singleton])
          simpa only [List.append_assoc, List.singleton_append] using this
        have e2 : (t ++ 0 :: rest).drop (t.length + args.flatten.length + 1)
            = List.drop (args.flatten.length + 1) (0 :: rest) := by
          rw [show t.length + args.flatten.length + 1 = t.length + (args.flatten.length + 1) by
            omega, ← List.drop_drop, List.drop_left]
        rw [e1, e2]
      · intro h
        cases h
      · intro h
        cases h
      · intro cap h
        cases h
        rw [hlen, List.length_append, List.length_cons]
        omega

/-- Witness for C11 as amended: `jst_append("hello", &6, " world")`, a target of 6 bytes. -/
theorem jst_append_capacity_witness :
    ∃ (buf : List Nat) (bs : Option Nat),
      jst_append (some [104, 101, 108, 108, 111, 0]) (some 6) [[32, 119, 111, 114, 108, 100]]
          (fun _ => .ok fun _ => none) (.ok fun _ => 9)
        = .ok ⟨some buf, bs⟩
      ∧ (∀ tb c, some [104, 101, 108, 108, 111, 0] = some tb → some 6 = some c →
          (5 + 6 + 1 ≤ c →
            bs = some c ∧ buf.length = tb.length
              ∧ buf.drop (5 + 6 + 1) = tb.drop (5 + 6 + 1))
          ∧ (c < 5 + 6 + 1 → bs = some (5 + 6 + 1) ∧ buf.length = 5 + 6 + 1))
      ∧ ((some [104, 101, 108, 108, 111, 0] : Option (List Nat)) = none →
          ∀ b, some 6 = some b →
            bs = some (max (5 + 6 + 1) b) ∧ buf.length = max (5 + 6 + 1) b)
      ∧ ((some [104, 101, 108, 108, 111, 0] : Option (List Nat)) = none →
          (some 6 : Option Nat) = none → bs = none ∧ buf.length = 5 + 6 + 1)
      ∧ (∀ cap, bs = some cap → 5 + 6 + 1 ≤ cap ∧ cap ≤ buf.length) :=
  jst_append_capacity (some [104, 101, 108, 108, 111, 0]) (some 6)
    [[32, 119, 111, 114, 108, 100]] [104, 101, 108, 108, 111]
    (fun _ _ => none) (fun _ => 9) (Or.inr ⟨[], 6, rfl, rfl, by decide⟩) (by decide)

/-- C11 as stated fails: a target `"a"` in a block of 4 bytes with tracked capacity 3 and no
arguments is left in place; the capacity stays 3, which is not the size 4 of the block
returned. -/
theorem jst_append_capacity_counterexample :
    jst_append (some [97, 0, 9, 9]) (some 3) [] (fun _ => .ok fun _ => none) (.ok fun _ => 0)
        = .ok ⟨some [97, 0, 9, 9], some 3⟩
    ∧ (3 : Nat) ≠ ([97, 0, 9, 9] : List Nat).length := by
  decide

/-- The table part of `jst_append` under any allocator whose failures store a non-zero
error code: the allocation of the table fails, or the argument loop ends on a failed
growth, or the growth for the null entry fails, each with the error code in `errno`; or the
table is built and every allocation asked for it was granted. -/
theorem append_table_outcome (tableAlloc : Nat → Alloc StrPtr)
    (herr : ∀ k e, tableAlloc k = .fail e → e ≠ 0) (args : List CStr) (total : Nat) :
    (∃ e, e ≠ 0 ∧ jst_malloc 10 (tableAlloc 0) = none ∧ (tableAlloc 0).errno 0 = e)
    ∨ (∃ table0 e n i tot, e ≠ 0 ∧ jst_malloc 10 (tableAlloc 0) = some table0
        ∧ collectArgs tableAlloc args ⟨some table0, 0, 10, total, 0⟩
            = .ok ⟨none, i, n, tot, e⟩)
    ∨ (∃ table0 table2 e n, e ≠ 0 ∧ jst_malloc 10 (tableAlloc 0) = some table0
        ∧ collectArgs tableAlloc args ⟨some table0, 0, 10, total, 0⟩
            = .ok ⟨some table2, (nonEmptyArgs args).length, table2.length,
                total + args.flatten.length, 0⟩
        ∧ appendArrayItemInRange none (some table2) (nonEmptyArgs args).length table2.length
            (some none) (tableAlloc ((nonEmptyArgs args).length + 1)) = .ok ⟨none, n⟩
        ∧ (tableAlloc ((nonEmptyArgs args).length + 1)).errno 0 = e)
    ∨ (∃ table0 table2 table3, jst_malloc 10 (tableAlloc 0) = some table0
        ∧ collectArgs tableAlloc args ⟨some table0, 0, 10, total, 0⟩
            = .ok ⟨some table2, (nonEmptyArgs args).length, table2.length,
                total + args.flatten.length, 0⟩
        ∧ appendArrayItemInRange none (some table2) (nonEmptyArgs args).length table2.length
            (some none) (tableAlloc ((nonEmptyArgs args).length + 1))
            = .ok ⟨some table3, table3.length⟩
        ∧ (∃ junk, tableAlloc 0 = .ok junk)
        ∧ (∀ g, g ≤ (nonEmptyArgs args).length → 10 ≤ g → g % 5 = 0 →
            ∃ junk, tableAlloc (g + 1) = .ok junk)) := by
  cases h0 : tableAlloc 0 with
  | fail e =>
    left
    exact ⟨e, herr 0 e h0, rfl, rfl⟩
  | ok junk0 =>
    right
    have h := collectArgs_run tableAlloc args ((List.range 10).map junk0) 0 total (by simp)
    simp only [List.length_map, List.length_range, Nat.zero_add, List.take_zero,
      List.nil_append] at h
    rcases h with ⟨g, e, n, tot, -, -, -, -, h5, h6⟩ | ⟨table2, h1, h2, h3, h4, h5, h6, h7⟩
    · left
      exact ⟨_, e, n, g + 1, tot, herr _ e h5, rfl, h6⟩
    · right
      rcases Nat.lt_or_ge (nonEmptyArgs args).length table2.length with hlt | hge
      · -- the null entry is stored in place
        right
        refine ⟨_, table2, table2.set (nonEmptyArgs args).length none, rfl, h1, ?_,
          ⟨junk0, rfl⟩, ?_⟩
        · rw [appendArrayItem_inplace_eq none table2 _ (some none) _ hlt]
          simp
        · intro g k1 k2 k3
          rcases Nat.eq_or_lt_of_le k1 with k4 | k4
          · have := (h7 g (by omega)).mpr ⟨k2, by omega⟩
            omega
          · exact h6 g (Nat.zero_le _) k4 k2 (by omega)
      · have he : (nonEmptyArgs args).length = table2.length := le_antisymm h2 hge
        cases ha : tableAlloc ((nonEmptyArgs args).length + 1) with
        | fail e =>
          left
          refine ⟨_, table2, e, table2.length + 5, herr _ e ha, rfl, h1, ?_, rfl⟩
          rw [he]
          exact appendArrayItem_grow_fail none table2 table2.length (some none) e (le_refl _)
        | ok junk =>
          right
          refine ⟨_, table2, (table2 ++ List.replicate 5 none).set table2.length none, rfl,
            h1, ?_, ⟨junk0, rfl⟩, ?_⟩
          · rw [he, appendArrayItem_grow_eq none table2 table2.length (some none) junk
              (le_refl _) (by omega)]
            simp
          · intro g k1 k2 k3
            rcases Nat.eq_or_lt_of_le k1 with k4 | k4
            · rw [k4]
              exact ⟨junk, ha⟩
            · exact h6 g (Nat.zero_le _) k4 k2 (by omega)


/-- C15: with an allocator whose failed table allocations store a non-zero error code, for
an absent target or a target that starts with the string `t` and its terminator and has a
capacity variable: if the allocation of the argument table fails, or a growth of the table
is refused at one of the indices `g = 10, 15, 20, ...` up to the number of non-empty
arguments, or the target has to be allocated or reallocated (it is absent, or its capacity
is below the size needed) and that request is refused, then `jst_append` returns `NULL`. -/
theorem jst_append_alloc_failure (target : Option (List Nat)) (bufsize : Option Nat)
    (args : List CStr) (t : CStr) (tableAlloc : Nat → Alloc StrPtr) (targetAlloc : Alloc Nat)
    (htarget : (target = none ∧ t = [])
      ∨ ∃ rest c, target = some (t ++ 0 :: rest) ∧ bufsize = some c)
    (ht : ∀ ch ∈ t, ch ≠ 0)
    (herr : ∀ k e, tableAlloc k = .fail e → e ≠ 0)
    (hfail : (∃ e, tableAlloc 0 = .fail e)
      ∨ (∃ g e, g ≤ (nonEmptyArgs args).length ∧ 10 ≤ g ∧ g % 5 = 0
          ∧ tableAlloc (g + 1) = .fail e)
      ∨ ((target = none ∨ ∃ c, bufsize = some c ∧ c < t.length + args.flatten.length + 1)
          ∧ ∃ e, targetAlloc = .fail e)) :
    ∃ bs : Option Nat,
      jst_append target bufsize args tableAlloc targetAlloc = .ok ⟨none, bs⟩ := by
  rcases htarget with ⟨rfl, rfl⟩ | ⟨rest, c, rfl, rfl⟩
  · rcases append_table_outcome tableAlloc herr args (0 + 1) with
      ⟨e, he, h1, h2⟩ | ⟨table0, e, n, i, tot, he, h1, h2⟩
      | ⟨table0, table2, e, n, he, h1, h2, h3, h4⟩ | ⟨table0, table2, table3, h1, h2, h3, h4, h5⟩
    · exact ⟨bufsize, by simp [jst_append, h1, h2, appendEnd, he]⟩
    · exact ⟨bufsize, by simp [jst_append, h1, h2, appendEnd, he]⟩
    · exact ⟨bufsize, by simp [jst_append, h1, h2, h3, h4, appendEnd, he]⟩
    · rcases hfail with ⟨e, hf⟩ | ⟨g, e, k1, k2, k3, hf⟩ | ⟨-, e, hf⟩
      · obtain ⟨junk, hj⟩ := h4
        rw [hj] at hf
        cases hf
      · obtain ⟨junk, hj⟩ := h5 g k1 k2 k3
        rw [hj] at hf
        cases hf
      · subst hf
        cases bufsize with
        | none =>
          exact ⟨none, by
            simp only [jst_append, h1, h2, h3]
            simp [jst_malloc, appendEnd]⟩
        | some b =>
          exact ⟨some b, by
            simp only [jst_append, h1, h2, h3]
            simp [jst_malloc, appendEnd]⟩
  · have hs := strlen_cstr t rest ht
    rcases append_table_outcome tableAlloc herr args (t.length + 1) with
      ⟨e, he, h1, h2⟩ | ⟨table0, e, n, i, tot, he, h1, h2⟩
      | ⟨table0, table2, e, n, he, h1, h2, h3, h4⟩ | ⟨table0, table2, table3, h1, h2, h3, h4, h5⟩
    · exact ⟨some c, by simp [jst_append, hs, h1, h2, appendEnd, he]⟩
    · exact ⟨some c, by simp [jst_append, hs, h1, h2, appendEnd, he]⟩
    · exact ⟨some c, by simp [jst_append, hs, h1, h2, h3, h4, appendEnd, he]⟩
    · rcases hfail with ⟨e, hf⟩ | ⟨g, e, k1, k2, k3, hf⟩ | ⟨hperf, e, hf⟩
      · obtain ⟨junk, hj⟩ := h4
        rw [hj] at hf
        cases hf
      · obtain ⟨junk, hj⟩ := h5 g k1 k2 k3
        rw [hj] at hf
        cases hf
      · subst hf
        have hlt : c < t.length + 1 + args.flatten.length := by
          rcases hperf with h | ⟨c2, h, h2⟩
          · cases h
          · cases h
            omega
        exact ⟨some c, by
          simp only [jst_append, hs, h1, h2, h3, hlt, if_true, jst_realloc, appendEnd]
          simp⟩

/-- Witness for C15: the allocation of the table fails with error code 12; the growth of the
table at index 10 fails for eleven non-empty arguments; the reallocation of the target
`"hi"` of capacity 3 fails when `"!"` is appended. -/
theorem jst_append_alloc_failure_witness :
    (∃ bs : Option Nat,
      jst_append none (some 0) [[102]] (fun _ => .fail 12) (.ok fun _ => 0) = .ok ⟨none, bs⟩)
    ∧ (∃ bs : Option Nat,
      jst_append none none
          [[1], [2], [3], [4], [5], [6], [7], [8], [9], [10], [11]]
          (fun k => if k = 11 then .fail 12 else .ok fun _ => none) (.ok fun _ => 0)
        = .ok ⟨none, bs⟩)
    ∧ (∃ bs : Option Nat,
      jst_append (some [104, 105, 0]) (some 3) [[33]] (fun _ => .ok fun _ => none) (.fail 12)
        = .ok ⟨none, bs⟩) :=
  ⟨jst_append_alloc_failure none (some 0) [[102]] [] (fun _ => .fail 12) (.ok fun _ => 0)
      (Or.inl ⟨rfl, rfl⟩) (by decide)
      (by intro k e h; cases h; decide)
      (Or.inl ⟨12, rfl⟩),
   jst_append_alloc_failure none none
      [[1], [2], [3], [4], [5], [6], [7], [8], [9], [10], [11]] []
      (fun k => if k = 11 then .fail 12 else .ok fun _ => none) (.ok fun _ => 0)
      (Or.inl ⟨rfl, rfl⟩) (by decide)
      (by
        intro k e h
        by_cases hk : k = 11
        · simp only [hk, if_true] at h
          cases h
          decide
        · simp only [hk, if_false] at h
          cases h)
      (Or.inr (Or.inl ⟨10, 12, by decide, by decide, by decide, rfl⟩)),
   jst_append_alloc_failure (some [104, 105, 0]) (some 3) [[33]] [104, 105]
      (fun _ => .ok fun _ => none) (.fail 12)
      (Or.inr ⟨[], 3, rfl, rfl⟩) (by decide)
      (by intro k e h; cases h)
      (Or.inr (Or.inr ⟨Or.inr ⟨3, rfl, by decide⟩, 12, rfl⟩))⟩

end JstDynmem
